import Mathlib

/-!
# A verification model of the media downloader (src/index.js)

The program reads a JSON export of chat messages, extracts attachment URLs
from each message's `Attachments` field, and downloads each attachment into a
local directory with a deterministic name `<ID>_<ordinal><ext>`.

This file gives a shallow embedding of the program:

* strings are modelled as `List Char` (`Str`);
* `fixData` models the regex pre-pass
  `rawData.replace(/"ID":\s*(\d+)/g, '"ID": "$1"')` of `readFile`;
* a small JSON parser models `JSON.parse` on the fragment the program uses
  (arrays, objects, strings with escapes, integer numeric literals);
* `downloadFile` models the fetcher over an abstract network oracle and an
  abstract file-system state (a list of existing paths);
* `processUrl` / `processRecord` / `runRecords` / `downloadAllAttachments`
  model the batch loop, including counters, the existence check, the pacing
  delay, the cancellation flag poll, and the per-attachment try/catch;
* side effects that matter to the specification (network attempts, skips,
  delays, logged errors) are recorded in an event trace.
-/

namespace MD

/-- Strings are modelled as lists of characters. -/
abbrev Str := List Char

/-- JavaScript whitespace (`\\s` in regexes, `String.prototype.trim`), by
code point: space, tab, LF, VT, FF, CR, NBSP, the Ogham space, the en-quad
through hair-space range, LS, PS, NNBSP, MMSP, the ideographic space and the
BOM. -/
def isWsChar (c : Char) : Bool :=
  c.toNat = 32 || c.toNat = 9 || c.toNat = 10 || c.toNat = 11 ||
  c.toNat = 12 || c.toNat = 13 || c.toNat = 160 || c.toNat = 5760 ||
  (8192 ≤ c.toNat && c.toNat ≤ 8202) || c.toNat = 8232 || c.toNat = 8233 ||
  c.toNat = 8239 || c.toNat = 8287 || c.toNat = 12288 || c.toNat = 65279

/-- Regex `\\d`: the ASCII digits, by code point. -/
def isDigitChar (c : Char) : Bool :=
  48 ≤ c.toNat && c.toNat ≤ 57

/-- `String.prototype.trim`: strip whitespace from both ends. -/
def trim (s : Str) : Str :=
  ((s.dropWhile isWsChar).reverse.dropWhile isWsChar).reverse

/-- `s.split(" ")`: split on every single space character, keeping empty
segments (JavaScript semantics: `"".split(" ") = [""]`,
`" ".split(" ") = ["", ""]`). -/
def splitOnSpace : Str → List Str
  | [] => [[]]
  | c :: cs =>
    if c = ' ' then [] :: splitOnSpace cs
    else
      match splitOnSpace cs with
      | [] => [[c]]
      | t :: ts => (c :: t) :: ts

/-- `message.Attachments.split(" ").filter((url) => url.trim() !== "")`
(src/index.js:145): the URL tokens of an attachments field. -/
def tokens (s : Str) : List Str :=
  (splitOnSpace s).filter (fun t => !(trim t).isEmpty)

/-- The decimal digit character for `d < 10`. -/
def digitChar (d : Nat) : Char :=
  Char.ofNat (48 + d)

/-- Worker for `natDigits`; the fuel (any bound above the value) only makes
the recursion structural. -/
def natDigitsGo : Nat → Nat → Str
  | 0, _ => []
  | fuel + 1, n =>
    if n < 10 then [digitChar n]
    else natDigitsGo fuel (n / 10) ++ [digitChar (n % 10)]

/-- Decimal rendering of a natural number, as produced by JavaScript string
interpolation of a (small enough) integer, e.g. in `` `${i + 1}` ``. -/
def natDigits (n : Nat) : Str :=
  natDigitsGo (n + 1) n

/-- Decimal decoding, a left inverse of `natDigits`. -/
def digitsVal (s : Str) : Nat :=
  s.foldl (fun a c => a * 10 + (c.toNat - 48)) 0

/-- The regex pre-pass of `readFile` (src/index.js:66):
`rawData.replace(/"ID":\s*(\d+)/g, '"ID": "$1"')`.

The global replace scans left to right.  At a position where the literal
`"ID":` is followed by greedy `\s*` and then at least one digit (greedy
`\d+`), the whole match is replaced by `"ID": "<digits>"` and scanning
resumes after the match; at any other position the character is copied and
scanning advances by one.  (Backtracking of `\s*` can never help, since no
character is both whitespace and a digit.) -/
def fixDataGo : Nat → Str → Str
  | _, [] => []
  | 0, l => l
  | fuel + 1, c :: cs =>
    if c = '"' then
      match cs with
      | 'I' :: 'D' :: '"' :: ':' :: rest =>
        let rest2 := rest.dropWhile isWsChar
        let digits := rest2.takeWhile isDigitChar
        if digits.isEmpty then '"' :: fixDataGo fuel cs
        else '"' :: 'I' :: 'D' :: '"' :: ':' :: ' ' :: '"' ::
             (digits ++ '"' :: fixDataGo fuel (rest2.drop digits.length))
      | _ => '"' :: fixDataGo fuel cs
    else c :: fixDataGo fuel cs

/-- The scan itself; the fuel of the worker only makes the recursion
structural (every step consumes at least one character, so `l.length` is
always enough, with slack growing at every match). -/
def fixData (l : Str) : Str :=
  fixDataGo l.length l

def hasIDNumMatchGo : Nat → Str → Bool
  | _, [] => false
  | 0, _ => false
  | fuel + 1, c :: cs =>
    if c = '"' then
      match cs with
      | 'I' :: 'D' :: '"' :: ':' :: rest =>
        let rest2 := rest.dropWhile isWsChar
        let digits := rest2.takeWhile isDigitChar
        if digits.isEmpty then hasIDNumMatchGo fuel cs else true
      | _ => hasIDNumMatchGo fuel cs
    else hasIDNumMatchGo fuel cs

/-- Whether the scan of `fixData` finds at least one match of
`/"ID":\s*\d+/` in the text (same scanning discipline as `fixData`). -/
def hasIDNumMatch (l : Str) : Bool :=
  hasIDNumMatchGo l.length l

/-! ## The fetcher and the batch loop -/

/-- Result of one HTTPS GET as observed by `downloadFile`: a response
carrying a status code, or a transport-level fault (DNS failure, connection
reset, timeout — the request's `error` event). -/
inductive NetResult where
  | response (status : Nat)
  | fault
deriving DecidableEq

/-- The network oracle: what a GET of each URL yields. -/
abbrev Net := Str → NetResult

/-- The file-system state: the paths at which a file currently exists
(contents do not matter to any claim). -/
structure FS where
  files : List Str
deriving DecidableEq

/-- `fs.existsSync`. -/
def FS.exists (fs : FS) (p : Str) : Bool :=
  fs.files.contains p

/-- `fs.createWriteStream` (existence effect: the file now exists). -/
def FS.create (fs : FS) (p : Str) : FS :=
  ⟨p :: fs.files⟩

/-- `fs.unlink`. -/
def FS.remove (fs : FS) (p : Str) : FS :=
  ⟨fs.files.filter (fun q => q ≠ p)⟩

/-- How one `downloadFile` promise settles. -/
inductive DLResult where
  | success
  | httpError (status : Nat)
  | transportError
deriving DecidableEq

/-- `downloadFile(url, filepath)` (src/index.js:79-103).
`fs.createWriteStream(filepath)` first creates the destination file.  A
response whose status is not `200` rejects the promise with *no cleanup*:
the created file stays.  A transport fault fires the `error` handler, which
unlinks the file and rejects.  On status `200` the body is piped to the
file, which is closed before the promise resolves. -/
def downloadFile (net : Net) (url filepath : Str) (fs : FS) : FS × DLResult :=
  let fs1 := fs.create filepath
  match net url with
  | .response status =>
    if status ≠ 200 then (fs1, .httpError status) else (fs1, .success)
  | .fault => (fs1.remove filepath, .transportError)

/-- The observable side effects of the run, in order: a logged URL error, a
skip of an existing file, a network attempt, a completed download, a logged
transfer error, the pacing delay. -/
inductive Event where
  | urlError (url : Str)
  | skippedExisting (path : Str)
  | netAttempt (url : Str)
  | downloaded (path : Str)
  | transferError (url : Str)
  | delayMs (n : Nat)
deriving DecidableEq

/-- The result of `new URL(url)`, restricted to the member the program
reads. -/
structure URLObj where
  pathname : Str
deriving DecidableEq

def isAlphaChar (c : Char) : Bool :=
  ('a' ≤ c && c ≤ 'z') || ('A' ≤ c && c ≤ 'Z')

def isSchemeChar (c : Char) : Bool :=
  isAlphaChar c || isDigitChar c || c = '+' || c = '-' || c = '.'

/-- ASCII lowercasing (the scheme and the `%2e` dot-segment spellings are
compared case-insensitively). -/
def asciiLower (c : Char) : Char :=
  if 'A' ≤ c && c ≤ 'Z' then Char.ofNat (c.toNat + 32) else c

/-- The WHATWG parser removes every ASCII tab, LF and CR from its input. -/
def stripTabNewline (s : Str) : Str :=
  s.filter fun c => !(c = '\t' || c = '\n' || c = '\r')

/-- The WHATWG parser trims leading and trailing C0 controls and spaces
(code points up to U+0020). -/
def trimC0Space (s : Str) : Str :=
  ((s.dropWhile fun c => c.toNat ≤ 32).reverse.dropWhile
    fun c => c.toNat ≤ 32).reverse

/-- The special schemes of the WHATWG standard. -/
def specialScheme (s : Str) : Bool :=
  let l := s.map asciiLower
  l = "http".data || l = "https".data || l = "ws".data || l = "wss".data ||
    l = "ftp".data || l = "file".data

/-- A single-dot path segment: `.` or `%2e`, case-insensitively. -/
def isSingleDotSeg (s : Str) : Bool :=
  s = ['.'] || s.map asciiLower = "%2e".data

/-- A double-dot path segment: `..` or a spelling of it with `%2e`,
case-insensitively. -/
def isDoubleDotSeg (s : Str) : Bool :=
  s = "..".data || s.map asciiLower = ".%2e".data ||
    s.map asciiLower = "%2e.".data || s.map asciiLower = "%2e%2e".data

/-- One step of the WHATWG path state, closing the buffered segment either
at a separator (`atSep`) or at the end of the path: a double-dot segment
pops the last segment, a single-dot segment adds nothing, and either adds
an empty segment when closed by the path end (keeping a trailing slash);
any other buffer is appended as a segment. -/
def pathSegStep (buffer : Str) (atSep : Bool) (path : List Str) : List Str :=
  if isDoubleDotSeg buffer then
    if atSep then path.dropLast else path.dropLast ++ [[]]
  else if isSingleDotSeg buffer then
    if atSep then path else path ++ [[]]
  else path ++ [buffer]

/-- The WHATWG path state over the text after the first `/` of the path:
`/` (and `\` for a special scheme) closes the buffered segment. -/
def pathStateGo (special : Bool) : Str → Str → List Str → List Str
  | [], buffer, path => pathSegStep buffer false path
  | c :: rest, buffer, path =>
    if c = '/' || (special && c = '\\') then
      pathStateGo special rest [] (pathSegStep buffer true path)
    else pathStateGo special rest (buffer ++ [c]) path

/-- Serialization of a segment list as a pathname. -/
def joinPath (segs : List Str) : Str :=
  segs.foldl (fun acc seg => acc ++ '/' :: seg) []

/-- The pathname computed from the raw path text (the part after the
authority, `?`/`#` excluded).  A special URL always enters the path state
(pathname `/` for an absent path); a non-special URL with no path keeps an
empty pathname. -/
def urlPath (special : Bool) (rawPath : Str) : Str :=
  if !special && rawPath.isEmpty then []
  else
    joinPath (pathStateGo special
      (if rawPath.headD ' ' = '/' || (special && rawPath.headD ' ' = '\\') then
        rawPath.drop 1
       else rawPath) [] [])

/-- Model of the WHATWG `new URL(url)` constructor (src/index.js:151),
restricted to computing `pathname`.  Tabs and newlines are removed and
C0 controls and spaces trimmed from the input.  A URL is
`<scheme>:<rest>`; a special scheme (http, https, ws, wss, ftp, file)
skips any `/` or `\` before the authority, a non-special one needs `//`
for an authority or a leading `/` for a rooted path and otherwise keeps an
opaque path.  An authority or rooted path goes through the path state,
which splits at `/` (also `\` for special schemes) and normalizes `.` and
`..` segments, including their `%2e` spellings.  A missing or malformed
scheme, or an empty host, makes the constructor throw (`none`).  Userinfo
and port splitting, percent-encoding of path characters, and the file
scheme's empty-host and drive-letter forms are not modelled; no claim
depends on them. -/
def parseURL (url0 : Str) : Option URLObj :=
  let url := stripTabNewline (trimC0Space url0)
  let scheme := url.takeWhile (fun c => c ≠ ':')
  if scheme.length = url.length then none
  else if scheme.isEmpty then none
  else if !(isAlphaChar (scheme.headD ' ') && scheme.all isSchemeChar) then none
  else
    let after := url.drop (scheme.length + 1)
    if specialScheme scheme then
      let rest := after.dropWhile fun c => c = '/' || c = '\\'
      let host := rest.takeWhile fun c => c ≠ '/' && c ≠ '\\' && c ≠ '?' && c ≠ '#'
      if host.isEmpty then none
      else
        some ⟨urlPath true
          ((rest.drop host.length).takeWhile fun c => c ≠ '?' && c ≠ '#')⟩
    else
      match after with
      | '/' :: '/' :: rest =>
        let host := rest.takeWhile fun c => c ≠ '/' && c ≠ '?' && c ≠ '#'
        if host.isEmpty then none
        else
          some ⟨urlPath false
            ((rest.drop host.length).takeWhile fun c => c ≠ '?' && c ≠ '#')⟩
      | '/' :: _ =>
        some ⟨urlPath false (after.takeWhile fun c => c ≠ '?' && c ≠ '#')⟩
      | _ => some ⟨after.takeWhile fun c => c ≠ '?' && c ≠ '#'⟩

/-- Node's posix `path.basename`: ignore trailing slashes, then keep what
follows the last remaining slash (empty for an all-slash or empty path). -/
def basename (p : Str) : Str :=
  let q := (p.reverse.dropWhile (fun c => c = '/')).reverse
  (q.reverse.takeWhile (fun c => c ≠ '/')).reverse

/-- The state of Node's `path.extname` scan (lib/path.js, `posix.extname`):
the index of the last dot seen, the start of the trimmed last path
component, one past the last non-separator character, whether only trailing
separators have been seen so far, and the `preDotState` tracker (0: nothing
seen yet beyond the last dot's right side, 1: a further dot seen, -1: a
non-dot character seen left of the last dot). -/
structure ExtScan where
  startDot : Option Nat
  startPart : Nat
  endIdx : Option Nat
  matchedSlash : Bool
  preDotState : Int
deriving DecidableEq

/-- The loop body of Node's `extname` for a non-separator character `c` at
index `i`: mark the end of the extension at the first such character, then
track the last dot and the `preDotState`. -/
def extStep (c : Char) (i : Nat) (st : ExtScan) : ExtScan :=
  let st1 :=
    if st.endIdx = none then
      { st with matchedSlash := false, endIdx := some (i + 1) }
    else st
  if c = '.' then
    match st1.startDot with
    | none => { st1 with startDot := some i }
    | some _ =>
      if st1.preDotState ≠ 1 then { st1 with preDotState := 1 } else st1
  else if st1.startDot ≠ none then { st1 with preDotState := -1 }
  else st1

/-- Node's `extname` loop, scanning the path right to left (indices
`i, i - 1, …, 0`; the list argument holds the characters at those indices,
i.e. the path reversed), breaking at the first separator before the
basename. -/
def extnameGo : List Char → Nat → ExtScan → ExtScan
  | [], _, st => st
  | c :: rest, i, st =>
    if c = '/' then
      if st.matchedSlash then extnameGo rest (i - 1) st
      else { st with startPart := i + 1 }
    else extnameGo rest (i - 1) (extStep c i st)

/-- The conditions after the scan, transliterated from lib/path.js: the
slice from the last dot to the end of the basename — empty when there is
no dot, no basename, no character right of the dot (`preDotState = 0`,
hidden files such as `.bashrc`), or the trimmed component is exactly
`..`. -/
def extOf (b : Str) (st : ExtScan) : Str :=
  match st.startDot, st.endIdx with
  | some sd, some e =>
    if st.preDotState = 0 ∨
        (st.preDotState = 1 ∧ sd + 1 = e ∧ sd = st.startPart + 1) then []
    else (b.drop sd).take (e - sd)
  | _, _ => []

/-- Node's posix `path.extname`: run the scan and apply the final
conditions. -/
def extname (b : Str) : Str :=
  extOf b (extnameGo b.reverse (b.length - 1) ⟨none, 0, none, true, 0⟩)

/-- The filename derivation of the loop body (src/index.js:151-156):
`path.extname(path.basename(new URL(url).pathname))` appended to
`` `${message.ID}_${i + 1}` `` (`i` is the 0-based loop index, so the
ordinal in the name is 1-based).  `none` when `new URL` throws. -/
def deriveFilename (id : Str) (i : Nat) (url : Str) : Option Str :=
  match parseURL url with
  | none => none
  | some u => some (id ++ '_' :: (natDigits (i + 1) ++ extname (basename u.pathname)))

/-- `path.join("./downloads", name)`, the destination path used both by the
existence check and by the write stream (src/index.js:156-160;
`path.resolve` maps both uses to the same file, so one canonical form
suffices). -/
def destPath (name : Str) : Str :=
  "downloads/".data ++ name

/-- The mutable state of one run: the file system, the two counters of
src/index.js:132-133, and the trace of observable events. -/
structure RunState where
  fs : FS
  downloadCount : Nat
  skippedCount : Nat
  events : List Event
deriving DecidableEq

/-- One iteration of the inner attachment loop (src/index.js:147-173) for
0-based index `i` and token `url`.  The `try` block parses the URL (a throw
is caught and logged: `urlError`), derives the destination, skips when a
file exists there, and otherwise awaits `downloadFile`; a rejection is
caught and logged (`transferError`).  Only a fulfilled download increments
the counter and is followed by the 700 ms pacing delay — the `catch` path
never reaches the delay statement. -/
def processUrl (net : Net) (id : Str) (i : Nat) (url : Str) (s : RunState) :
    RunState :=
  match deriveFilename id i url with
  | none => { s with events := s.events ++ [.urlError url] }
  | some name =>
    let filepath := destPath name
    if s.fs.exists filepath then
      { s with skippedCount := s.skippedCount + 1,
               events := s.events ++ [.skippedExisting filepath] }
    else
      match downloadFile net url filepath s.fs with
      | (fs1, .success) =>
        { s with fs := fs1, downloadCount := s.downloadCount + 1,
                 events := s.events ++
                   [.netAttempt url, .downloaded filepath, .delayMs 700] }
      | (fs1, .httpError _) =>
        { s with fs := fs1,
                 events := s.events ++ [.netAttempt url, .transferError url] }
      | (fs1, .transportError) =>
        { s with fs := fs1,
                 events := s.events ++ [.netAttempt url, .transferError url] }

/-- The inner loop `for (let i = 0; i < urls.length; i++)` over the URL
tokens. -/
def processUrls (net : Net) (id : Str) : List Str → Nat → RunState → RunState
  | [], _, s => s
  | u :: us, i, s => processUrls net id us (i + 1) (processUrl net id i u s)

/-- One record as the loop sees it: the interpolated `ID` and the
`Attachments` value when it is a string (`none` for an absent field). -/
structure Msg where
  ID : Str
  Attachments : Option Str
deriving DecidableEq

/-- The record-loop body for one message (src/index.js:141-174): an absent
(or otherwise falsy) `Attachments` value, or one that is blank after
`trim`, is skipped outright; otherwise the tokens are processed in order.
(An `Attachments` value that is present but not a string is outside the
modelled input domain: on such a record the `.trim()` call would throw
outside the per-attachment `try`.) -/
def processRecord (net : Net) (m : Msg) (s : RunState) : RunState :=
  match m.Attachments with
  | none => s
  | some a =>
    if a.isEmpty then s
    else if (trim a).isEmpty then s
    else processUrls net m.ID (tokens a) 0 s

/-- How the record loop ended. -/
inductive RunStatus where
  | completed
  | cancelled
deriving DecidableEq

/-- Whether the `isShuttingDown` flag is observed set at the poll before the
record with 1-based index `i`: `cancelAt = some k` means the flag becomes
set just before the poll for record `k`. -/
def shutFlag (cancelAt : Option Nat) (i : Nat) : Bool :=
  match cancelAt with
  | none => false
  | some k => k ≤ i

/-- The record loop (src/index.js:135-175): before each record the
`isShuttingDown` flag is polled; when set, the loop reports the counters
and returns early.  `i` is the 1-based index of the next record. -/
def runRecords (net : Net) (cancelAt : Option Nat) :
    List Msg → Nat → RunState → RunState × RunStatus
  | [], _, s => (s, .completed)
  | m :: ms, i, s =>
    if shutFlag cancelAt i then (s, .cancelled)
    else runRecords net cancelAt ms (i + 1) (processRecord net m s)

/-- The number of attachment tasks the loop derives from one message. -/
def msgTokenCount (m : Msg) : Nat :=
  match m.Attachments with
  | none => 0
  | some a =>
    if a.isEmpty then 0
    else if (trim a).isEmpty then 0
    else (tokens a).length

/-- The number of attachment tasks derived from a whole input. -/
def totalTokenCount (ms : List Msg) : Nat :=
  (ms.map msgTokenCount).sum

/-! ## JSON

A model of `JSON.parse` on the fragment the program exercises: arrays,
objects, strings with escapes, the keywords, and integer numeric literals
(the only numeric shape relevant to the claims; a fraction, an exponent or
a leading-zero check are not modelled, and the model rejects
fraction/exponent forms). -/

def bitLenGo : Nat → Nat → Nat
  | 0, _ => 0
  | fuel + 1, n => if n = 0 then 0 else bitLenGo fuel (n / 2) + 1

/-- The number of binary digits of `n` (0 for 0). -/
def bitLen (n : Nat) : Nat :=
  bitLenGo (n + 1) n

/-- Rounding of a natural number to the nearest IEEE-754 double (53-bit
significand, round half to even): the value JavaScript's generic number
parsing assigns to an integer literal.  The identity below `2^53`; above
it, precision is lost. -/
def roundDouble (n : Nat) : Nat :=
  if n < 2 ^ 53 then n
  else
    let e := bitLen n - 53
    let q := n / 2 ^ e
    let r := n % 2 ^ e
    let half := 2 ^ (e - 1)
    if half < r || (r = half && q % 2 = 1) then (q + 1) * 2 ^ e else q * 2 ^ e

/-- Parsed JSON values.  A numeric literal is kept as its decimal
components — sign, mantissa (the integer and fraction digits run together)
and decimal exponent (the written exponent minus the number of fraction
digits), so the value is `±mant·10^exp10`; the use sites apply the IEEE-754
double semantics (`numLitIsZero` for the truthiness test, `roundDouble`
for interpolation). -/
inductive JValue where
  | null
  | bool (b : Bool)
  | num (neg : Bool) (mant : Nat) (exp10 : Int)
  | str (s : Str)
  | arr (items : List JValue)
  | obj (fields : List (Str × JValue))

/-- A single-character JSON string escape `\c`; `none` when invalid. -/
def escChar (c : Char) : Option Char :=
  if c = '"' then some '"'
  else if c = '\\' then some '\\'
  else if c = '/' then some '/'
  else if c = 'b' then some '\x08'
  else if c = 'f' then some '\x0c'
  else if c = 'n' then some '\n'
  else if c = 'r' then some '\r'
  else if c = 't' then some '\t'
  else none

/-- The value of a hexadecimal digit. -/
def hexVal (c : Char) : Option Nat :=
  if isDigitChar c then some (c.toNat - 48)
  else if 'a' ≤ c && c ≤ 'f' then some (c.toNat - 87)
  else if 'A' ≤ c && c ≤ 'F' then some (c.toNat - 55)
  else none

/-- Parse the body of a JSON string after its opening quote, returning the
decoded content and the input after the closing quote.  (Surrogate pairing
of `\u` escapes is not modelled; no input in this development uses
escapes.) -/
def parseStringBody : Str → Option (Str × Str)
  | [] => none
  | c :: rest =>
    if c = '"' then some ([], rest)
    else if c = '\\' then
      match rest with
      | 'u' :: h1 :: h2 :: h3 :: h4 :: rest2 =>
        match hexVal h1, hexVal h2, hexVal h3, hexVal h4 with
        | some a, some b, some x, some d =>
          (parseStringBody rest2).map fun p =>
            (Char.ofNat (((a * 16 + b) * 16 + x) * 16 + d) :: p.1, p.2)
        | _, _, _, _ => none
      | e :: rest2 =>
        match escChar e with
        | some ec => (parseStringBody rest2).map fun p => (ec :: p.1, p.2)
        | none => none
      | [] => none
    else if c.toNat < 32 then none
    else (parseStringBody rest).map fun p => (c :: p.1, p.2)

/-- The optional exponent part of a JSON numeric literal, after the
mantissa: `e`/`E`, an optional sign and at least one digit; `shift` is the
number of fraction digits already folded into `mant`. -/
def parseExpPart (neg : Bool) (mant : Nat) (shift : Nat) (l : Str) :
    Option (JValue × Str) :=
  match l with
  | 'e' :: rest | 'E' :: rest =>
    let eneg := decide (rest.headD ' ' = '-')
    let epos := decide (rest.headD ' ' = '+')
    let rest2 := if eneg || epos then rest.drop 1 else rest
    let eDigits := rest2.takeWhile isDigitChar
    if eDigits.isEmpty then none
    else
      some (.num neg mant
        ((if eneg then -(digitsVal eDigits : Int) else (digitsVal eDigits : Int)) -
          (shift : Int)),
        rest2.drop eDigits.length)
  | _ => some (.num neg mant (-(shift : Int)), l)

/-- Parse a JSON numeric literal (`JSON.parse` grammar): an optional minus,
an integer part whose leading digit is `0` only when it is the single digit
`0`, an optional fraction of at least one digit, an optional exponent. -/
def parseNumber (l : Str) : Option (JValue × Str) :=
  let neg := decide (l.headD ' ' = '-')
  let l1 := if neg then l.drop 1 else l
  let intDigits := l1.takeWhile isDigitChar
  if intDigits.isEmpty then none
  else if intDigits.headD ' ' = '0' && intDigits.length != 1 then none
  else
    match l1.drop intDigits.length with
    | '.' :: l3 =>
      let fracDigits := l3.takeWhile isDigitChar
      if fracDigits.isEmpty then none
      else
        parseExpPart neg (digitsVal (intDigits ++ fracDigits)) fracDigits.length
          (l3.drop fracDigits.length)
    | l2 => parseExpPart neg (digitsVal intDigits) 0 l2

/-- Whether the numeric literal `±mant·10^exp10` rounds to the double zero
(the only falsy numbers): an all-zero mantissa, or a magnitude of at most
`2^-1075` — half the least subnormal — which rounds to zero half-even. -/
def numLitIsZero (mant : Nat) (exp10 : Int) : Bool :=
  mant = 0 || (exp10 < 0 && mant * 2 ^ 1075 ≤ 10 ^ exp10.natAbs)

/-- JSON insignificant whitespace. -/
def isJsonWs (c : Char) : Bool :=
  c = ' ' || c = '\t' || c = '\n' || c = '\r'

def skipWs (l : Str) : Str :=
  l.dropWhile isJsonWs

/-- The shape of the three mutually recursive parsing procedures: one JSON
value, the items of an array, the fields of an object. -/
abbrev Parsers :=
  (Str → Option (JValue × Str)) ×
  (Str → Option (List JValue × Str)) ×
  (Str → Option (List (Str × JValue) × Str))

/-- The three procedures, by recursion on the fuel (which bounds the depth
of nesting plus the number of sequenced elements; every unit of fuel
corresponds to at least one consumed character, so the input length is
always a sufficient bound). -/
def parsers : Nat → Parsers
  | 0 => (fun _ => none, fun _ => none, fun _ => none)
  | fuel + 1 =>
    let P := parsers fuel
    (fun l =>
      match l with
      | 'n' :: 'u' :: 'l' :: 'l' :: rest => some (.null, rest)
      | 't' :: 'r' :: 'u' :: 'e' :: rest => some (.bool true, rest)
      | 'f' :: 'a' :: 'l' :: 's' :: 'e' :: rest => some (.bool false, rest)
      | '"' :: rest => (parseStringBody rest).map fun p => (.str p.1, p.2)
      | '[' :: rest =>
        (match skipWs rest with
         | ']' :: rest2 => some (.arr [], rest2)
         | l2 => (P.2.1 l2).map fun p => (.arr p.1, p.2))
      | '{' :: rest =>
        (match skipWs rest with
         | '}' :: rest2 => some (.obj [], rest2)
         | l2 => (P.2.2 l2).map fun p => (.obj p.1, p.2))
      | l2 => parseNumber l2,
     fun l =>
      match P.1 l with
      | none => none
      | some (v, r) =>
        match skipWs r with
        | ',' :: r2 => (P.2.1 (skipWs r2)).map fun p => (v :: p.1, p.2)
        | ']' :: r2 => some ([v], r2)
        | _ => none,
     fun l =>
      match l with
      | '"' :: rest =>
        (match parseStringBody rest with
         | none => none
         | some (k, r) =>
           match skipWs r with
           | ':' :: r2 =>
             (match P.1 (skipWs r2) with
              | none => none
              | some (v, r3) =>
                match skipWs r3 with
                | ',' :: r4 =>
                  (P.2.2 (skipWs r4)).map fun p => ((k, v) :: p.1, p.2)
                | '}' :: r4 => some ([(k, v)], r4)
                | _ => none)
           | _ => none)
      | _ => none)

/-- Parse one JSON value; the caller has skipped leading whitespace. -/
def parseValue (fuel : Nat) : Str → Option (JValue × Str) :=
  (parsers fuel).1

/-- Parse `value (, value)* ]` inside an array. -/
def parseItems (fuel : Nat) : Str → Option (List JValue × Str) :=
  (parsers fuel).2.1

/-- Parse `"key": value (, "key": value)* }` inside an object. -/
def parseFields (fuel : Nat) : Str → Option (List (Str × JValue) × Str) :=
  (parsers fuel).2.2

/-- `JSON.parse`: parse a complete text, allowing surrounding whitespace.
The fuel `raw.length + 1` dominates the depth of the recursion, which
consumes input at every level. -/
def jsonParse (raw : Str) : Option JValue :=
  match parseValue (raw.length + 1) (skipWs raw) with
  | some (v, r) => if (skipWs r).isEmpty then some v else none
  | none => none

/-- Member access `obj[key]` on a parsed object (`JSON.parse` keeps the last
of duplicate keys); `none` for a missing member or a non-object. -/
def getField (v : JValue) (key : Str) : Option JValue :=
  match v with
  | .obj fields => (fields.reverse.find? (fun f => f.1 = key)).map (fun f => f.2)
  | _ => none

/-- JavaScript string interpolation of the `ID` member (`${message.ID}`,
src/index.js:156): a string interpolates as itself; a zero number (also
`-0`) as `0`; an integral number in decimal with the double rounding
applied (exact below `10^21`; exponent notation for larger magnitudes is
not modelled); a fractional literal as its exact decimal expansion with
trailing zeros trimmed (this is the shortest-round-trip string JavaScript
prints whenever the literal itself is shortest for its double; other
literals, and exponent notation below `10^-6`, are not modelled); an
absent member as `undefined`; the keywords as themselves.  (Array/object
interpolation beyond the constant cases is not modelled; no claim reads
such an ID.) -/
def stringifyID (v : Option JValue) : Str :=
  match v with
  | none => "undefined".data
  | some (.str s) => s
  | some (.num neg mant e) =>
    if numLitIsZero mant e then ['0']
    else
      (if neg then ['-'] else []) ++
        (if 0 ≤ e then natDigits (roundDouble (mant * 10 ^ e.natAbs))
         else
          let k := e.natAbs
          let ip := natDigits (mant / 10 ^ k)
          let fp := natDigits (mant % 10 ^ k)
          let fpPad := List.replicate (k - fp.length) '0' ++ fp
          let fpTrim := (fpPad.reverse.dropWhile (fun c => c = '0')).reverse
          if fpTrim.isEmpty then ip else ip ++ '.' :: fpTrim)
  | some .null => "null".data
  | some (.bool true) => "true".data
  | some (.bool false) => "false".data
  | some (.arr _) => []
  | some (.obj _) => "[object Object]".data

/-- The benign-record view of one parsed record (src/index.js:141, 145,
156): the interpolated `ID` and the `Attachments` value when it is a
string.  A truthy non-string `Attachments` value is projected to `none`
here; its faithful treatment — the `.trim()` `TypeError` that aborts the
run — is `toRec`/`runRecsV` below, and this view is only read on records
that `RecV.benign` accepts. -/
def toMsg (v : JValue) : Msg :=
  { ID := stringifyID (getField v "ID".data),
    Attachments :=
      match getField v "Attachments".data with
      | some (.str s) => some s
      | _ => none }

/-- `readFile` (src/index.js:64-69): the ID pre-pass on the raw text, then
`JSON.parse`; `none` models the throw on invalid JSON. -/
def readFile (raw : Str) : Option JValue :=
  jsonParse (fixData raw)

/-- `readFile` followed by the loop's per-record view; `none` when the file
does not parse to an array. -/
def readMessages (raw : Str) : Option (List Msg) :=
  match readFile raw with
  | some (.arr items) => some (items.map toMsg)
  | _ => none

/-! ## The whole program -/

/-- How the loop's test `!message.Attachments ||
message.Attachments.trim() === ""` (src/index.js:141) can treat the
`Attachments` member: an absent member (`undefined`) and the falsy values
`null`, `false`, `0` and a zero double skip the record; a string reaches
the trim test and the split; any other truthy value (`true`, a nonzero
number, an array, an object) has no `.trim` method, and the `TypeError`
is thrown outside the per-attachment `try`, aborting the run. -/
inductive AttView where
  | skip
  | text (s : Str)
  | crash
deriving DecidableEq

def attView (v : Option JValue) : AttView :=
  match v with
  | none => .skip
  | some .null => .skip
  | some (.bool false) => .skip
  | some (.bool true) => .crash
  | some (.num _ mant e) => if numLitIsZero mant e then .skip else .crash
  | some (.str s) => .text s
  | some (.arr _) => .crash
  | some (.obj _) => .crash

/-- One parsed record as the loop reads it: the interpolated `ID` and the
`Attachments` view. -/
structure RecV where
  ID : Str
  att : AttView
deriving DecidableEq

def toRec (v : JValue) : RecV :=
  ⟨stringifyID (getField v "ID".data), attView (getField v "Attachments".data)⟩

/-- How the record loop ended: normally, by the cancellation poll, or by
the field-test `TypeError` escaping it. -/
inductive RunEnd where
  | completed
  | cancelled
  | crashed
deriving DecidableEq

/-- The record loop of src/index.js:135-175 over parsed records, including
the field-test crash: the shutdown poll, the falsy/blank skip, and the
token loop exactly as in `runRecords`/`processRecord`, plus the abort when
`.trim()` throws on a truthy non-string `Attachments` value (the state
reached so far persists; later records are untouched). -/
def runRecsV (net : Net) (cancelAt : Option Nat) :
    List RecV → Nat → RunState → RunState × RunEnd
  | [], _, s => (s, .completed)
  | r :: rs, i, s =>
    if shutFlag cancelAt i then (s, .cancelled)
    else
      match r.att with
      | .skip => runRecsV net cancelAt rs (i + 1) s
      | .crash => (s, .crashed)
      | .text a =>
        if a.isEmpty then runRecsV net cancelAt rs (i + 1) s
        else if (trim a).isEmpty then runRecsV net cancelAt rs (i + 1) s
        else runRecsV net cancelAt rs (i + 1)
          (processUrls net r.ID (tokens a) 0 s)

/-- The outcome of `downloadAllAttachments()`: a startup failure rejects
before the loop; otherwise the loop ran and either completed, returned at
the cancellation poll, or was aborted by the field-test `TypeError` — in
each case with the state it reached. -/
inductive DAResult where
  | ran (s : RunState) (e : RunEnd)
  | fatal (msg : Str)
deriving DecidableEq

/-- `downloadAllAttachments` (src/index.js:117-178) as a function of the
input file's text (`none` when `data/messages.json` does not exist), the
network, the cancellation behaviour and the initial file system.  A missing
input file throws; invalid JSON makes `readFile` throw; a parsed value that
is not an array makes `for … of` throw.  Otherwise the record loop runs to
completion, cancellation, or the field-test crash.
(`createDirIfNotExists` only touches the two directories and cannot fail
in the modelled file system.) -/
def downloadAllAttachments (raw : Option Str) (net : Net)
    (cancelAt : Option Nat) (fs0 : FS) : DAResult :=
  match raw with
  | none => .fatal "Input file not found: data/messages.json. Please place your messages.json file in the data directory.".data
  | some text =>
    match readFile text with
    | none => .fatal "SyntaxError: invalid JSON".data
    | some (.arr items) =>
      let p := runRecsV net cancelAt (items.map toRec) 1 ⟨fs0, 0, 0, []⟩
      .ran p.1 p.2
    | some _ => .fatal "TypeError: data is not iterable".data

/-- The top-level call `downloadAllAttachments().catch(console.error)`
(src/index.js:180): a rejection — at startup or from the loop's
`TypeError` — is caught and printed, after which the process exits
normally.  Returns the exit status and the error message the catch
printed, if any. -/
def mainRun (raw : Option Str) (net : Net) (cancelAt : Option Nat)
    (fs0 : FS) : Nat × Option Str :=
  match downloadAllAttachments raw net cancelAt fs0 with
  | .ran _ .crashed =>
    (0, some "TypeError: message.Attachments.trim is not a function".data)
  | .ran _ _ => (0, none)
  | .fatal e => (0, some e)

/-- A character that may sit in a rendered string value without escaping
and without interfering with the ID pre-pass: printable, not `"`, not
`\`. -/
def safeChar (c : Char) : Bool :=
  32 ≤ c.toNat && c ≠ '"' && c ≠ '\\'

/-- A schematic record: the ID's digits and the attachments text. -/
structure RawRec where
  idDigits : Str
  att : Str

/-- Well-formedness of a schematic record: a nonempty all-digit ID and safe
attachment characters. -/
def RawRec.wf (r : RawRec) : Prop :=
  r.idDigits ≠ [] ∧ r.idDigits.all isDigitChar ∧ r.att.all safeChar

/-- One record rendered with the ID quoted. -/
def renderQRec (r : RawRec) : Str :=
  "\x7b\"ID\": \"".data ++ r.idDigits ++ "\", \"Attachments\": \"".data ++
    r.att ++ "\"\x7d".data

/-- One record rendered with the ID as an unquoted integer literal. -/
def renderNRec (r : RawRec) : Str :=
  "\x7b\"ID\": ".data ++ r.idDigits ++ ", \"Attachments\": \"".data ++
    r.att ++ "\"\x7d".data

/-- The comma-separated record list of an export. -/
def renderRecs (render1 : RawRec → Str) : List RawRec → Str
  | [] => []
  | [r] => render1 r
  | r :: rs => render1 r ++ ',' :: renderRecs render1 rs

/-- A whole export `[r₁,…,rₙ]`. -/
def renderExport (render1 : RawRec → Str) (rs : List RawRec) : Str :=
  '[' :: (renderRecs render1 rs ++ [']'])

/-- The parsed JSON value of a schematic record. -/
def recVal (r : RawRec) : JValue :=
  .obj [("ID".data, .str r.idDigits), ("Attachments".data, .str r.att)]

/-! ## Trace predicates (claim-side observables) -/

/-- One step of the scan for two network attempts with no pacing delay
between them; the flag records that a network attempt has been seen with no
delay event after it. -/
def unpacedFrom : Bool → List Event → Bool
  | _, [] => false
  | pending, e :: es =>
    match e with
    | .netAttempt _ => if pending then true else unpacedFrom true es
    | .delayMs _ => unpacedFrom false es
    | _ => unpacedFrom pending es

/-- Whether a trace contains two consecutive network attempts with no
pacing delay between them (the violation of the claimed pacing
property). -/
def hasUnpacedNetPair (evs : List Event) : Bool :=
  unpacedFrom false evs

/-- The pacing discipline as a trace property: every `downloaded` event is
immediately followed by the 700 ms delay, and a delay occurs nowhere else
(in particular never after a failed attempt). -/
def pacedCorrectly : List Event → Bool
  | [] => true
  | .downloaded _ :: .delayMs 700 :: rest => pacedCorrectly rest
  | .downloaded _ :: _ => false
  | .delayMs _ :: _ => false
  | _ :: rest => pacedCorrectly rest

def isNetAttempt : Event → Bool
  | .netAttempt _ => true
  | _ => false

/-- A per-attachment failure event: a logged URL error or transfer
error. -/
def isFailure : Event → Bool
  | .urlError _ => true
  | .transferError _ => true
  | _ => false

/-- A trace with no per-attachment failure. -/
def failureFree (evs : List Event) : Bool :=
  evs.all (fun e => !isFailure e)

/-- Whether one attachment would be skipped: its URL parses and its
destination path already exists. -/
def urlSkippable (fs : FS) (id : Str) (i : Nat) (u : Str) : Bool :=
  match deriveFilename id i u with
  | none => false
  | some name => fs.exists (destPath name)

/-- `urlSkippable` across a token list, with the running index. -/
def urlsSkippable (fs : FS) (id : Str) : List Str → Nat → Bool
  | [], _ => true
  | u :: us, i => urlSkippable fs id i u && urlsSkippable fs id us (i + 1)

/-- Whether every attachment task of a message would be skipped. -/
def msgSkippable (fs : FS) (m : Msg) : Bool :=
  match m.Attachments with
  | none => true
  | some a =>
    if a.isEmpty then true
    else if (trim a).isEmpty then true
    else urlsSkippable fs m.ID (tokens a) 0

/-! ## Claims C1, C3, C7 -/

/-- C1: the claim — on any failure after the destination file has been
created (non-success status *or* transport fault) the partial file is
deleted, so that afterwards no file exists at the destination — fails on
the code in the bad-status case.  `downloadFile` rejects a non-200 response
without any cleanup, leaving the file `createWriteStream` created, and only
the transport-fault handler unlinks it; this contradicts the program's own
stated behaviour ("Deletes partially downloaded files on failure").  This
theorem evaluates the fetcher at the failing input: a 404 response leaves
the destination file existing, while a transport fault removes it. -/
theorem c1_badStatus_leaves_file :
    downloadFile (fun _ => .response 404) "http://x/a.jpg".data
        "downloads/1_1.jpg".data ⟨[]⟩ =
      (⟨["downloads/1_1.jpg".data]⟩, .httpError 404) ∧
    (downloadFile (fun _ => .response 404) "http://x/a.jpg".data
        "downloads/1_1.jpg".data ⟨[]⟩).1.exists "downloads/1_1.jpg".data
      = true ∧
    downloadFile (fun _ => .fault) "http://x/a.jpg".data
        "downloads/1_1.jpg".data ⟨[]⟩ = (⟨[]⟩, .transportError) := by
  decide

/-- C3: the claim — one task per non-empty whitespace-or-comma-separated
token — fails on the code, which splits the attachments field on the single
space character only (src/index.js:145): a comma-separated pair of URLs
stays one token (one task instead of two), and a tab-separated pair
likewise.  This contradicts the program's own documentation ("Processes
comma/space-separated attachment URLs").  The absent/empty/blank cases do
produce zero tasks as claimed.  This theorem evaluates the tokenizer at the
failing inputs. -/
theorem c3_comma_not_split :
    tokens "http://x/a.jpg,http://x/b.png".data =
      ["http://x/a.jpg,http://x/b.png".data] ∧
    (tokens "http://x/a.jpg,http://x/b.png".data).length = 1 ∧
    tokens ['a', '\t', 'b'] = [['a', '\t', 'b']] ∧
    msgTokenCount ⟨['1'], none⟩ = 0 ∧
    msgTokenCount ⟨['1'], some []⟩ = 0 ∧
    msgTokenCount ⟨['1'], some [' ', ' ']⟩ = 0 := by
  decide

/-- C7 counterexample: with the input file missing, the error is reported
(the catch prints it) but the process exits with status 0, not the claimed
non-zero status — `downloadAllAttachments().catch(console.error)` handles
the rejection, so the process terminates normally. -/
theorem c7_counterexample :
    mainRun none (fun _ => .response 200) none ⟨[]⟩ =
      (0, some "Input file not found: data/messages.json. Please place your messages.json file in the data directory.".data) := by
  decide

/-- C7 (amended): when the input file cannot be located, the run aborts at
startup with the error reported to the operator, but the process exits with
status 0 rather than a non-zero status; normal completion also exits 0, and
per-attachment errors never affect the exit status (it is 0 for every
input, network behaviour and cancellation behaviour). -/
theorem c7_exit_status (raw : Option Str) (net : Net) (cancelAt : Option Nat)
    (fs0 : FS) :
    (mainRun raw net cancelAt fs0).1 = 0 ∧
    (raw = none → (mainRun raw net cancelAt fs0).2 =
      some "Input file not found: data/messages.json. Please place your messages.json file in the data directory.".data) := by
  refine ⟨?_, ?_⟩
  · unfold mainRun
    cases downloadAllAttachments raw net cancelAt fs0 with
    | fatal e => rfl
    | ran s e => cases e <;> rfl
  · rintro rfl
    rfl

/-- C7 witness: the amended theorem at a concrete input. -/
theorem c7_exit_status_witness :
    (mainRun none (fun _ => .response 200) none ⟨[]⟩).1 = 0 ∧
    (mainRun none (fun _ => .response 200) none ⟨[]⟩).2 =
      some "Input file not found: data/messages.json. Please place your messages.json file in the data directory.".data :=
  ⟨(c7_exit_status none (fun _ => .response 200) none ⟨[]⟩).1,
   (c7_exit_status none (fun _ => .response 200) none ⟨[]⟩).2 rfl⟩

/-! ## Claim C4: filename derivation -/

theorem natDigitsGo_congr : ∀ f1 f2 n, n < f1 → n < f2 →
    natDigitsGo f1 n = natDigitsGo f2 n := by
  intro f1
  induction f1 with
  | zero => omega
  | succ f ih =>
    intro f2 n h1 h2
    cases f2 with
    | zero => omega
    | succ g =>
      simp only [natDigitsGo]
      by_cases h : n < 10
      · simp [h]
      · simp only [h, if_false]
        rw [ih g (n / 10) (by omega) (by omega)]

theorem natDigitsGo_eq_natDigits (f n : Nat) (h : n < f) :
    natDigitsGo f n = natDigits n :=
  natDigitsGo_congr f (n + 1) n h (by omega)

theorem digitChar_toNat (d : Nat) (h : d < 10) : (digitChar d).toNat = 48 + d := by
  interval_cases d <;> decide

theorem isDigitChar_digitChar (d : Nat) (h : d < 10) :
    isDigitChar (digitChar d) = true := by
  simp only [isDigitChar, digitChar_toNat d h, Bool.and_eq_true,
    decide_eq_true_eq]
  omega

theorem natDigitsGo_all_digit : ∀ f n, n < f →
    (natDigitsGo f n).all isDigitChar = true := by
  intro f
  induction f with
  | zero => omega
  | succ g ih =>
    intro n h
    simp only [natDigitsGo]
    by_cases h10 : n < 10
    · simp [h10, isDigitChar_digitChar n h10]
    · simp only [h10, if_false, List.all_append, Bool.and_eq_true]
      refine And.intro ?_ ?_
      · exact ih (n / 10) (by omega)
      · simp [isDigitChar_digitChar (n % 10) (by omega)]

theorem natDigits_all_digit (n : Nat) : (natDigits n).all isDigitChar = true :=
  natDigitsGo_all_digit (n + 1) n (by omega)

theorem digitsVal_append_one (s : Str) (c : Char) :
    digitsVal (s ++ [c]) = digitsVal s * 10 + (c.toNat - 48) := by
  simp [digitsVal, List.foldl_append]

theorem digitsVal_natDigitsGo : ∀ f n, n < f → digitsVal (natDigitsGo f n) = n := by
  intro f
  induction f with
  | zero => omega
  | succ g ih =>
    intro n h
    simp only [natDigitsGo]
    by_cases h10 : n < 10
    · simp [h10, digitsVal, digitChar_toNat n h10]
    · simp only [h10, if_false]
      rw [digitsVal_append_one, ih (n / 10) (by omega),
          digitChar_toNat (n % 10) (by omega)]
      omega

theorem digitsVal_natDigits (n : Nat) : digitsVal (natDigits n) = n :=
  digitsVal_natDigitsGo (n + 1) n (by omega)

theorem natDigits_inj (a b : Nat) (h : natDigits a = natDigits b) : a = b := by
  have := congrArg digitsVal h
  rwa [digitsVal_natDigits, digitsVal_natDigits] at this

theorem takeWhile_all_append (p : Char → Bool) :
    ∀ (d t : Str), d.all p = true → (∀ c ∈ t.head?, p c = false) →
      (d ++ t).takeWhile p = d := by
  intro d
  induction d with
  | nil =>
    intro t _ ht
    cases t with
    | nil => rfl
    | cons c t2 =>
      have hc : p c = false := ht c (by simp)
      simp [List.takeWhile_cons, hc]
  | cons c d2 ih =>
    intro t hall ht
    simp only [List.all_cons, Bool.and_eq_true] at hall
    simp [List.takeWhile_cons, hall.1, ih t hall.2 ht]

theorem digits_prefix_eq (d1 d2 t1 t2 : Str)
    (h1 : d1.all isDigitChar = true) (h2 : d2.all isDigitChar = true)
    (n1 : ∀ c ∈ t1.head?, isDigitChar c = false)
    (n2 : ∀ c ∈ t2.head?, isDigitChar c = false)
    (he : d1 ++ t1 = d2 ++ t2) : d1 = d2 := by
  have := congrArg (List.takeWhile isDigitChar) he
  rwa [takeWhile_all_append _ _ _ h1 n1, takeWhile_all_append _ _ _ h2 n2] at this

theorem extStep_inv (b : Str) (c : Char) (i : Nat) (st : ExtScan)
    (hget : b[i]? = some c) (hlen : i + 1 ≤ b.length)
    (hdot : ∀ sd, st.startDot = some sd → b[sd]? = some '.')
    (hend : ∀ e, st.endIdx = some e → i < e ∧ e ≤ b.length)
    (hse : st.startDot = none ∨ st.endIdx ≠ none)
    (hlt : ∀ sd e, st.startDot = some sd → st.endIdx = some e → sd < e) :
    (∀ sd, (extStep c i st).startDot = some sd → b[sd]? = some '.') ∧
    (∀ e, (extStep c i st).endIdx = some e → i - 1 < e ∧ e ≤ b.length) ∧
    ((extStep c i st).startDot = none ∨ (extStep c i st).endIdx ≠ none) ∧
    (∀ sd e, (extStep c i st).startDot = some sd →
      (extStep c i st).endIdx = some e → sd < e) := by
  by_cases he0 : st.endIdx = none
  · have hD : st.startDot = none := by
      rcases hse with h | h
      · exact h
      · exact absurd he0 h
    by_cases hdc : c = '.'
    · have hr : extStep c i st =
          ⟨some i, st.startPart, some (i + 1), false, st.preDotState⟩ := by
        simp [extStep, he0, hdc, hD]
      rw [hr]
      refine ⟨?_, ?_, Or.inr (by simp), ?_⟩
      · intro sd h
        obtain rfl : i = sd := by simpa using h
        rw [hget, hdc]
      · intro e h
        obtain rfl : i + 1 = e := by simpa using h
        omega
      · intro sd e h1 h2
        obtain rfl : i = sd := by simpa using h1
        obtain rfl : i + 1 = e := by simpa using h2
        omega
    · have hr : extStep c i st =
          ⟨none, st.startPart, some (i + 1), false, st.preDotState⟩ := by
        simp [extStep, he0, hdc, hD]
      rw [hr]
      refine ⟨?_, ?_, Or.inl rfl, ?_⟩
      · intro sd h; simp at h
      · intro e h
        obtain rfl : i + 1 = e := by simpa using h
        omega
      · intro sd e h1 h2; simp at h1
  · have hE : ∃ e0, st.endIdx = some e0 := by
      cases hx : st.endIdx with
      | none => exact absurd hx he0
      | some e0 => exact ⟨e0, rfl⟩
    obtain ⟨e0, hE⟩ := hE
    by_cases hdc : c = '.'
    · cases hsd : st.startDot with
      | none =>
        have hr : extStep c i st =
            ⟨some i, st.startPart, st.endIdx, st.matchedSlash,
              st.preDotState⟩ := by
          simp [extStep, he0, hdc, hsd]
        rw [hr]
        refine ⟨?_, ?_, Or.inr (by simp [hE]), ?_⟩
        · intro sd h
          obtain rfl : i = sd := by simpa using h
          rw [hget, hdc]
        · intro e h
          have := hend e h
          omega
        · intro sd e h1 h2
          obtain rfl : i = sd := by simpa using h1
          exact (hend e h2).1
      | some sd0 =>
        have hfields : (extStep c i st).startDot = st.startDot ∧
            (extStep c i st).endIdx = st.endIdx := by
          by_cases hpd : st.preDotState ≠ 1 <;>
            simp [extStep, he0, hdc, hsd, hpd]
        refine ⟨?_, ?_, ?_, ?_⟩
        · intro sd h; exact hdot sd (hfields.1 ▸ h)
        · intro e h
          have := hend e (hfields.2 ▸ h)
          omega
        · exact Or.inr (by rw [hfields.2, hE]; simp)
        · intro sd e h1 h2
          exact hlt sd e (hfields.1 ▸ h1) (hfields.2 ▸ h2)
    · have hfields : (extStep c i st).startDot = st.startDot ∧
          (extStep c i st).endIdx = st.endIdx := by
        cases hsd : st.startDot with
        | none => simp [extStep, he0, hdc, hsd]
        | some sd0 => simp [extStep, he0, hdc, hsd]
      refine ⟨?_, ?_, ?_, ?_⟩
      · intro sd h; exact hdot sd (hfields.1 ▸ h)
      · intro e h
        have := hend e (hfields.2 ▸ h)
        omega
      · exact Or.inr (by rw [hfields.2, hE]; simp)
      · intro sd e h1 h2
        exact hlt sd e (hfields.1 ▸ h1) (hfields.2 ▸ h2)

theorem extnameGo_sound (b : Str) :
    ∀ (l : List Char) (i : Nat) (st : ExtScan),
      (l ≠ [] → l = (b.take (i + 1)).reverse ∧ i + 1 ≤ b.length) →
      (∀ sd, st.startDot = some sd → b[sd]? = some '.') →
      (∀ e, st.endIdx = some e → i < e ∧ e ≤ b.length) →
      (st.startDot = none ∨ st.endIdx ≠ none) →
      (∀ sd e, st.startDot = some sd → st.endIdx = some e → sd < e) →
      (∀ sd, (extnameGo l i st).startDot = some sd → b[sd]? = some '.') ∧
      (∀ e, (extnameGo l i st).endIdx = some e → e ≤ b.length) ∧
      (∀ sd e, (extnameGo l i st).startDot = some sd →
        (extnameGo l i st).endIdx = some e → sd < e) := by
  intro l
  induction l with
  | nil =>
    intro i st _ hdot hend _ hlt
    exact ⟨hdot, fun e h => (hend e h).2, hlt⟩
  | cons c rest ih =>
    intro i st hl hdot hend hse hlt
    obtain ⟨hleq, hlen⟩ := hl (by simp)
    have hi : i < b.length := by omega
    have htake : b.take (i + 1) = b.take i ++ [b[i]] := by
      rw [List.take_succ, List.getElem?_eq_getElem hi]
      rfl
    have hcr : c = b[i] ∧ rest = (b.take i).reverse := by
      rw [htake, List.reverse_append] at hleq
      simp only [List.reverse_cons, List.reverse_nil, List.nil_append,
        List.singleton_append, List.cons.injEq] at hleq
      exact hleq
    have hget : b[i]? = some c := by
      rw [hcr.1]
      exact List.getElem?_eq_getElem hi
    have hrest : rest ≠ [] → rest = (b.take (i - 1 + 1)).reverse ∧
        i - 1 + 1 ≤ b.length := by
      intro hne
      have h1 : 1 ≤ i := by
        by_contra h0
        have hz : i = 0 := by omega
        have hr0 : rest = (b.take i).reverse := hcr.2
        rw [hz] at hr0
        simp only [List.take_zero, List.reverse_nil] at hr0
        exact hne hr0
      have h2 : i - 1 + 1 = i := by omega
      rw [h2]
      exact ⟨hcr.2, by omega⟩
    by_cases hsl : c = '/'
    · subst hsl
      by_cases hm : st.matchedSlash = true
      · have hred : extnameGo ('/' :: rest) i st = extnameGo rest (i - 1) st := by
          simp [extnameGo, hm]
        rw [hred]
        exact ih (i - 1) st hrest hdot
          (fun e he => ⟨by have := (hend e he).1; omega, (hend e he).2⟩) hse hlt
      · have hred : extnameGo ('/' :: rest) i st =
            { st with startPart := i + 1 } := by
          simp [extnameGo, hm]
        rw [hred]
        exact ⟨hdot, fun e he => (hend e he).2, hlt⟩
    · have hred : extnameGo (c :: rest) i st =
          extnameGo rest (i - 1) (extStep c i st) := by
        simp [extnameGo, hsl]
      rw [hred]
      obtain ⟨h1, h2, h3, h4⟩ :=
        extStep_inv b c i st hget (by omega) hdot hend hse hlt
      exact ih (i - 1) (extStep c i st) hrest h1 h2 h3 h4

theorem extOf_shape (b : Str) (st : ExtScan)
    (hdot : ∀ sd, st.startDot = some sd → b[sd]? = some '.')
    (hlt : ∀ sd e, st.startDot = some sd → st.endIdx = some e → sd < e) :
    extOf b st = [] ∨ ∃ t, extOf b st = '.' :: t := by
  obtain ⟨osd, sp, oe, m, pd⟩ := st
  cases osd with
  | none => exact Or.inl rfl
  | some sd =>
    cases oe with
    | none => exact Or.inl rfl
    | some e =>
      have hdot2 : b[sd]? = some '.' := hdot sd rfl
      have hlt2 : sd < e := hlt sd e rfl rfl
      have hsd : sd < b.length := by
        cases hx : b[sd]? with
        | none =>
          rw [hx] at hdot2
          exact absurd hdot2 (by simp)
        | some x => exact (List.getElem?_eq_some.mp hx).1
      have hval : b[sd] = '.' := by
        rw [List.getElem?_eq_getElem hsd] at hdot2
        simpa using hdot2
      unfold extOf
      by_cases hc : (pd = 0 ∨ (pd = 1 ∧ sd + 1 = e ∧ sd = sp + 1))
      · exact Or.inl (by simp [hc])
      · right
        refine ⟨(b.drop (sd + 1)).take (e - sd - 1), ?_⟩
        simp only [hc, if_false]
        rw [← List.getElem_cons_drop b sd hsd,
          show e - sd = (e - sd - 1) + 1 from by omega, List.take_succ_cons,
          hval]
        simp

/-- `extname` is empty or starts with a dot. -/
theorem extname_shape (b : Str) : extname b = [] ∨ ∃ t, extname b = '.' :: t := by
  have hs := extnameGo_sound b b.reverse (b.length - 1) ⟨none, 0, none, true, 0⟩
    (by
      intro hne
      have hb : b ≠ [] := by simpa using hne
      have h1 : b.length - 1 + 1 = b.length := by
        have : 0 < b.length := List.length_pos.mpr hb
        omega
      rw [h1, List.take_length]
      exact ⟨rfl, by omega⟩)
    (fun sd h => by cases h) (fun e h => by cases h) (Or.inl rfl)
    (fun sd e h1 _ => by cases h1)
  exact extOf_shape b _ hs.1 hs.2.2

theorem extname_head_not_digit (b : Str) :
    ∀ c ∈ (extname b).head?, isDigitChar c = false := by
  rcases extname_shape b with h | ⟨t, h⟩ <;> rw [h]
  · intro c hc; simp at hc
  · intro c hc
    simp only [List.head?_cons, Option.mem_def, Option.some.injEq] at hc
    subst hc
    decide

/-- C4: the derived output filename is `<identifier>_<ordinal><extension>`
(the loop index `i` is 0-based, so the ordinal in the name is `i + 1`),
where the extension is `path.extname` of the basename of the URL's path
(empty when the path has no extension, and always either empty or starting
with the dot); the derivation is a pure function, hence deterministic; and
for the same identifier, distinct ordinals never produce the same filename,
whatever the URLs.  In particular the record with ID 100000000000000001 and
attachments `http://x/a.jpg http://x/b.png` gets the filenames
`100000000000000001_1.jpg` and `100000000000000001_2.png`. -/
theorem c4_filename_derivation :
    (deriveFilename "100000000000000001".data 0 "http://x/a.jpg".data =
        some "100000000000000001_1.jpg".data ∧
     deriveFilename "100000000000000001".data 1 "http://x/b.png".data =
        some "100000000000000001_2.png".data) ∧
    (∀ id i url, deriveFilename id i url = deriveFilename id i url) ∧
    (∀ id i url u, parseURL url = some u →
      deriveFilename id i url =
        some (id ++ '_' :: (natDigits (i + 1) ++ extname (basename u.pathname)))) ∧
    (∀ id i j u1 u2 f1 f2, deriveFilename id i u1 = some f1 →
      deriveFilename id j u2 = some f2 → i ≠ j → f1 ≠ f2) := by
  refine ⟨⟨by decide, by decide⟩, fun id i url => rfl, ?_, ?_⟩
  · intro id i url u h
    simp [deriveFilename, h]
  · intro id i j u1 u2 f1 f2 h1 h2 hij heq
    simp only [deriveFilename] at h1 h2
    cases hp1 : parseURL u1 with
    | none => rw [hp1] at h1; exact Option.noConfusion h1
    | some v1 =>
      cases hp2 : parseURL u2 with
      | none => rw [hp2] at h2; exact Option.noConfusion h2
      | some v2 =>
        rw [hp1] at h1; rw [hp2] at h2
        injection h1 with h1; injection h2 with h2
        subst h1; subst h2
        have hx := List.append_cancel_left heq
        injection hx with _ hx
        have := digits_prefix_eq _ _ _ _ (natDigits_all_digit (i + 1))
          (natDigits_all_digit (j + 1)) (extname_head_not_digit _)
          (extname_head_not_digit _) hx
        have hinj := natDigits_inj _ _ this
        exact hij (by omega)

/-- C4 witness: the collision-freedom and shape parts at concrete inputs. -/
theorem c4_filename_derivation_witness :
    "100000000000000001_1.jpg".data ≠ "100000000000000001_2.png".data ∧
    deriveFilename "9".data 0 "http://x/a.jpg".data =
      some ("9".data ++ '_' :: (natDigits 1 ++ extname (basename "/a.jpg".data))) :=
  ⟨c4_filename_derivation.2.2.2 "100000000000000001".data 0 1
      "http://x/a.jpg".data "http://x/b.png".data _ _
      (by decide) (by decide) (by decide),
   c4_filename_derivation.2.2.1 "9".data 0 "http://x/a.jpg".data
      ⟨"/a.jpg".data⟩ (by decide)⟩

/-! ## Claim C6: pacing -/

theorem pacedCorrectly_append : ∀ a b : List Event,
    pacedCorrectly a = true → pacedCorrectly b = true →
    pacedCorrectly (a ++ b) = true := by
  intro a
  induction a using pacedCorrectly.induct with
  | case1 => intro b _ hb; simpa using hb
  | case2 p rest ih =>
    intro b ha hb
    simp only [pacedCorrectly] at ha
    simpa only [List.cons_append, pacedCorrectly] using ih b ha hb
  | case3 p tail hne =>
    intro b ha _
    rw [show pacedCorrectly (Event.downloaded p :: tail) = false from ?_] at ha
    · exact absurd ha (by simp)
    · cases tail with
      | nil => rfl
      | cons e t2 =>
        cases e with
        | delayMs n =>
          by_cases hn : n = 700
          · subst hn
            exact (hne t2 rfl).elim
          · simp [pacedCorrectly, hn]
        | urlError u => rfl
        | skippedExisting q => rfl
        | netAttempt u => rfl
        | downloaded q => rfl
        | transferError u => rfl
  | case4 n tail =>
    intro b ha _
    simp [pacedCorrectly] at ha
  | case5 head rest h1 h2 h3 ih =>
    intro b ha hb
    cases head with
    | downloaded q => exact absurd rfl (h2 q)
    | delayMs n => exact absurd rfl (h3 n)
    | urlError u =>
      simp only [pacedCorrectly] at ha
      simpa only [List.cons_append, pacedCorrectly] using ih b ha hb
    | skippedExisting q =>
      simp only [pacedCorrectly] at ha
      simpa only [List.cons_append, pacedCorrectly] using ih b ha hb
    | netAttempt u =>
      simp only [pacedCorrectly] at ha
      simpa only [List.cons_append, pacedCorrectly] using ih b ha hb
    | transferError u =>
      simp only [pacedCorrectly] at ha
      simpa only [List.cons_append, pacedCorrectly] using ih b ha hb


theorem pacedCorrectly_processUrl (net : Net) (id : Str) (i : Nat) (u : Str)
    (s : RunState) (hs : pacedCorrectly s.events = true) :
    pacedCorrectly (processUrl net id i u s).events = true := by
  unfold processUrl
  dsimp only
  split
  · exact pacedCorrectly_append _ _ hs rfl
  · split
    · exact pacedCorrectly_append _ _ hs rfl
    · split <;> exact pacedCorrectly_append _ _ hs rfl

theorem pacedCorrectly_processUrls (net : Net) (id : Str) :
    ∀ (us : List Str) (i : Nat) (s : RunState),
      pacedCorrectly s.events = true →
      pacedCorrectly (processUrls net id us i s).events = true := by
  intro us
  induction us with
  | nil => intro i s hs; exact hs
  | cons u us2 ih =>
    intro i s hs
    exact ih (i + 1) _ (pacedCorrectly_processUrl net id i u s hs)

theorem pacedCorrectly_processRecord (net : Net) (m : Msg) (s : RunState)
    (hs : pacedCorrectly s.events = true) :
    pacedCorrectly (processRecord net m s).events = true := by
  unfold processRecord
  split
  · exact hs
  · split
    · exact hs
    · split
      · exact hs
      · exact pacedCorrectly_processUrls net m.ID _ 0 s hs

theorem pacedCorrectly_runRecords (net : Net) (cancelAt : Option Nat) :
    ∀ (msgs : List Msg) (i : Nat) (s : RunState),
      pacedCorrectly s.events = true →
      pacedCorrectly ((runRecords net cancelAt msgs i s).1.events) = true := by
  intro msgs
  induction msgs with
  | nil => intro i s hs; exact hs
  | cons m ms ih =>
    intro i s hs
    unfold runRecords
    split
    · exact hs
    · exact ih (i + 1) _ (pacedCorrectly_processRecord net m s hs)

/-- C6 (amended): the pacing wait follows only successful transfers — in
every run's trace, each fulfilled download is immediately followed by the
700 ms delay, and a delay occurs nowhere else; in particular a failed
attempt (bad status or transport fault) is never followed by the pacing
wait, because the `catch` path skips the delay statement. -/
theorem c6_pacing_only_after_success (net : Net) (cancelAt : Option Nat)
    (msgs : List Msg) (i d0 k0 : Nat) (fs0 : FS) :
    pacedCorrectly
      ((runRecords net cancelAt msgs i ⟨fs0, d0, k0, []⟩).1.events) = true :=
  pacedCorrectly_runRecords net cancelAt msgs i _ rfl

/-- C6 counterexample: one record with two attachments where the first
transfer fails with a 404; the trace shows the two network attempts with no
pacing delay between them, refuting the claim that a wait separates every
pair of consecutive network attempts. -/
theorem c6_counterexample :
    ((runRecords
        (fun u => if u = "http://x/a.jpg".data then .response 404 else .response 200)
        none [⟨['1'], some "http://x/a.jpg http://x/b.png".data⟩] 1
        ⟨⟨[]⟩, 0, 0, []⟩).1.events =
      [.netAttempt "http://x/a.jpg".data, .transferError "http://x/a.jpg".data,
       .netAttempt "http://x/b.png".data, .downloaded "downloads/1_2.png".data,
       .delayMs 700]) ∧
    hasUnpacedNetPair
      ((runRecords
        (fun u => if u = "http://x/a.jpg".data then .response 404 else .response 200)
        none [⟨['1'], some "http://x/a.jpg http://x/b.png".data⟩] 1
        ⟨⟨[]⟩, 0, 0, []⟩).1.events) = true := by
  refine ⟨by decide, by decide⟩

/-! ## Claim C9: cancellation -/

theorem runRecords_none_completed (net : Net) :
    ∀ (msgs : List Msg) (i : Nat) (s : RunState),
      (runRecords net none msgs i s).2 = .completed := by
  intro msgs
  induction msgs with
  | nil => intro i s; rfl
  | cons m ms ih =>
    intro i s
    simpa only [runRecords, shutFlag, Bool.false_eq_true, if_false] using
      ih (i + 1) (processRecord net m s)

theorem runRecords_cancel_take (net : Net) (k : Nat) :
    ∀ (msgs : List Msg) (i : Nat) (s : RunState), 1 ≤ i → i ≤ k →
      (runRecords net (some k) msgs i s).1 =
        (runRecords net none (msgs.take (k - i)) i s).1 ∧
      ((runRecords net (some k) msgs i s).2 = .cancelled ↔
        k ≤ i - 1 + msgs.length) := by
  intro msgs
  induction msgs with
  | nil =>
    intro i s h1 hik
    refine ⟨by simp [runRecords], ?_⟩
    simp only [runRecords, List.take_nil, List.length_nil]
    constructor
    · intro h; exact absurd h (by simp)
    · omega
  | cons m ms ih =>
    intro i s h1 hik
    by_cases hki : k ≤ i
    · have h0 : k - i = 0 := by omega
      rw [h0]
      constructor
      · simp [runRecords, shutFlag, hki]
      · simp only [runRecords, shutFlag, hki, decide_eq_true_eq, if_true,
          List.length_cons]
        constructor
        · intro _; omega
        · intro _; simp
    · have hf : shutFlag (some k) i = false := by
        simp only [shutFlag, decide_eq_false_iff_not]
        omega
      have htake : (m :: ms).take (k - i) = m :: ms.take (k - (i + 1)) := by
        have h2 : k - i = (k - (i + 1)) + 1 := by omega
        rw [h2, List.take_succ_cons]
      rw [htake]
      have hres := ih (i + 1) (processRecord net m s) (by omega) (by omega)
      constructor
      · simp only [runRecords, hf, Bool.false_eq_true, if_false]
        exact hres.1
      · simp only [runRecords, hf, Bool.false_eq_true, if_false,
          List.length_cons]
        rw [hres.2]
        omega

/-- C9: the cancellation flag is polled before each record; if it becomes
set just before the poll for record `k` (1-based), the run's final state —
file system, both counters and the whole event trace — is identical to that
of an uncancelled run over only the first `k - 1` records (so records `k`
onward derive no tasks, make no network calls and change no counters), the
cancelled run reports exactly when a record at index `≥ k` existed, and the
run ends without error. -/
theorem c9_cancellation (net : Net) (msgs : List Msg) (k : Nat) (fs0 : FS)
    (hk : 1 ≤ k) :
    (runRecords net (some k) msgs 1 ⟨fs0, 0, 0, []⟩).1 =
      (runRecords net none (msgs.take (k - 1)) 1 ⟨fs0, 0, 0, []⟩).1 ∧
    ((runRecords net (some k) msgs 1 ⟨fs0, 0, 0, []⟩).2 = .cancelled ↔
      k ≤ msgs.length) ∧
    (runRecords net none (msgs.take (k - 1)) 1 ⟨fs0, 0, 0, []⟩).2 =
      .completed := by
  have h := runRecords_cancel_take net k msgs 1 ⟨fs0, 0, 0, []⟩ (by omega) hk
  refine ⟨h.1, ?_, runRecords_none_completed net _ 1 _⟩
  rw [h.2]
  omega

/-- C9 witness: cancelling before record 3 of 5 gives the same state as an
uncancelled run over records 1-2, with status cancelled. -/
theorem c9_cancellation_witness :
    (runRecords (fun _ => .response 200) (some 3)
        [⟨['1'], some "http://x/a.jpg".data⟩, ⟨['2'], some "http://x/b.png".data⟩,
         ⟨['3'], some "http://x/c.gif".data⟩, ⟨['4'], none⟩, ⟨['5'], none⟩] 1
        ⟨⟨[]⟩, 0, 0, []⟩).1 =
      (runRecords (fun _ => .response 200) none
        ([⟨['1'], some "http://x/a.jpg".data⟩, ⟨['2'], some "http://x/b.png".data⟩,
          ⟨['3'], some "http://x/c.gif".data⟩, ⟨['4'], none⟩, ⟨['5'], none⟩].take (3 - 1)) 1
        ⟨⟨[]⟩, 0, 0, []⟩).1 ∧
    ((runRecords (fun _ => .response 200) (some 3)
        [⟨['1'], some "http://x/a.jpg".data⟩, ⟨['2'], some "http://x/b.png".data⟩,
         ⟨['3'], some "http://x/c.gif".data⟩, ⟨['4'], none⟩, ⟨['5'], none⟩] 1
        ⟨⟨[]⟩, 0, 0, []⟩).2 = .cancelled ↔
      3 ≤ ([⟨['1'], some "http://x/a.jpg".data⟩, ⟨['2'], some "http://x/b.png".data⟩,
         ⟨['3'], some "http://x/c.gif".data⟩, ⟨['4'], none⟩,
         (⟨['5'], none⟩ : Msg)]).length) ∧
    (runRecords (fun _ => .response 200) none
        ([⟨['1'], some "http://x/a.jpg".data⟩, ⟨['2'], some "http://x/b.png".data⟩,
          ⟨['3'], some "http://x/c.gif".data⟩, ⟨['4'], none⟩, ⟨['5'], none⟩].take (3 - 1)) 1
        ⟨⟨[]⟩, 0, 0, []⟩).2 = .completed :=
  c9_cancellation (fun _ => .response 200)
    [⟨['1'], some "http://x/a.jpg".data⟩, ⟨['2'], some "http://x/b.png".data⟩,
     ⟨['3'], some "http://x/c.gif".data⟩, ⟨['4'], none⟩, ⟨['5'], none⟩] 3 ⟨[]⟩
    (by omega)

/-! ## Claim C8: failure isolation -/

theorem failureFree_append (a b : List Event) :
    failureFree (a ++ b) = (failureFree a && failureFree b) := by
  simp [failureFree, List.all_append]

theorem FS.exists_create_of_exists (fs : FS) (p q : Str)
    (h : fs.exists p = true) : (fs.create q).exists p = true := by
  simp only [FS.exists, FS.create] at h ⊢
  simp only [List.contains_cons, Bool.or_eq_true]
  exact Or.inr h

theorem FS.exists_create_self (fs : FS) (p : Str) :
    (fs.create p).exists p = true := by
  simp [FS.exists, FS.create, List.contains_cons]

theorem downloadFile_ok (net : Net) (url fp : Str) (fs : FS)
    (hn : net url = .response 200) :
    downloadFile net url fp fs = (fs.create fp, .success) := by
  unfold downloadFile
  rw [hn]
  simp

theorem downloadFile_bad (net : Net) (url fp : Str) (fs : FS) (st : Nat)
    (hn : net url = .response st) (hs : st ≠ 200) :
    downloadFile net url fp fs = (fs.create fp, .httpError st) := by
  unfold downloadFile
  rw [hn]
  simp [hs]

theorem downloadFile_fault (net : Net) (url fp : Str) (fs : FS)
    (hn : net url = .fault) :
    downloadFile net url fp fs = ((fs.create fp).remove fp, .transportError) := by
  unfold downloadFile
  rw [hn]

theorem urlSkippable_mono (fs fs2 : FS) (id : Str) (i : Nat) (u : Str)
    (hm : ∀ p, fs.exists p = true → fs2.exists p = true)
    (h : urlSkippable fs id i u = true) : urlSkippable fs2 id i u = true := by
  unfold urlSkippable at h ⊢
  cases hd : deriveFilename id i u with
  | none => simp_all
  | some name =>
    rw [hd] at h
    dsimp only at h ⊢
    exact hm _ h

theorem urlsSkippable_mono (fs fs2 : FS) (id : Str)
    (hm : ∀ p, fs.exists p = true → fs2.exists p = true) :
    ∀ (us : List Str) (i : Nat), urlsSkippable fs id us i = true →
      urlsSkippable fs2 id us i = true := by
  intro us
  induction us with
  | nil => intro i _; rfl
  | cons u us2 ih =>
    intro i h
    simp only [urlsSkippable, Bool.and_eq_true] at h ⊢
    exact ⟨urlSkippable_mono fs fs2 id i u hm h.1, ih (i + 1) h.2⟩

theorem msgSkippable_mono (fs fs2 : FS) (m : Msg)
    (hm : ∀ p, fs.exists p = true → fs2.exists p = true)
    (h : msgSkippable fs m = true) : msgSkippable fs2 m = true := by
  unfold msgSkippable at h ⊢
  split at h
  · rfl
  · split at h
    · simp_all
    · split at h
      · simp_all
      · simp_all only
        exact urlsSkippable_mono fs fs2 _ hm _ 0 h

theorem failureFree_urlError (u : Str) :
    failureFree [Event.urlError u] = false := by
  simp [failureFree, isFailure]

theorem failureFree_transfer (u : Str) :
    failureFree [Event.netAttempt u, Event.transferError u] = false := by
  simp [failureFree, isFailure]

theorem processUrl_noFail (net : Net) (id : Str) (i : Nat) (u : Str)
    (s : RunState)
    (h : failureFree (processUrl net id i u s).events = true) :
    (∀ p, s.fs.exists p = true → (processUrl net id i u s).fs.exists p = true) ∧
    urlSkippable (processUrl net id i u s).fs id i u = true ∧
    failureFree s.events = true := by
  unfold processUrl at h ⊢
  cases hd : deriveFilename id i u with
  | none =>
    rw [hd] at h
    dsimp only at h
    rw [failureFree_append, failureFree_urlError, Bool.and_false] at h
    exact absurd h (by simp)
  | some name =>
    rw [hd] at h
    dsimp only at h ⊢
    by_cases he : s.fs.exists (destPath name) = true
    · simp only [he, if_true] at h ⊢
      rw [failureFree_append] at h
      refine ⟨fun p hp => hp, ?_, ?_⟩
      · simp [urlSkippable, hd, he]
      · exact ((Bool.and_eq_true _ _).mp h).1
    · simp only [he, Bool.false_eq_true, if_false] at h ⊢
      cases hn : net u with
      | response status =>
        by_cases hs : status = 200
        · subst hs
          rw [downloadFile_ok net u (destPath name) s.fs hn] at h ⊢
          dsimp only at h ⊢
          rw [failureFree_append] at h
          refine ⟨?_, ?_, ?_⟩
          · intro p hp
            exact FS.exists_create_of_exists s.fs p _ hp
          · simp only [urlSkippable, hd]
            exact FS.exists_create_self s.fs _
          · exact ((Bool.and_eq_true _ _).mp h).1
        · rw [downloadFile_bad net u (destPath name) s.fs status hn hs] at h
          dsimp only at h
          rw [failureFree_append, failureFree_transfer, Bool.and_false] at h
          exact absurd h (by simp)
      | fault =>
        rw [downloadFile_fault net u (destPath name) s.fs hn] at h
        dsimp only at h
        rw [failureFree_append, failureFree_transfer, Bool.and_false] at h
        exact absurd h (by simp)


theorem processUrls_noFail (net : Net) (id : Str) :
    ∀ (us : List Str) (i : Nat) (s : RunState),
      failureFree (processUrls net id us i s).events = true →
      (∀ p, s.fs.exists p = true →
        (processUrls net id us i s).fs.exists p = true) ∧
      urlsSkippable (processUrls net id us i s).fs id us i = true ∧
      failureFree s.events = true := by
  intro us
  induction us with
  | nil => intro i s h; exact ⟨fun p hp => hp, rfl, h⟩
  | cons u us2 ih =>
    intro i s h
    simp only [processUrls] at h ⊢
    have hres := ih (i + 1) (processUrl net id i u s) h
    have h1 := processUrl_noFail net id i u s hres.2.2
    refine ⟨fun p hp => hres.1 p (h1.1 p hp), ?_, h1.2.2⟩
    simp only [urlsSkippable, Bool.and_eq_true]
    exact ⟨urlSkippable_mono _ _ id i u hres.1 h1.2.1, hres.2.1⟩

theorem processRecord_noFail (net : Net) (m : Msg) (s : RunState)
    (h : failureFree (processRecord net m s).events = true) :
    (∀ p, s.fs.exists p = true → (processRecord net m s).fs.exists p = true) ∧
    msgSkippable (processRecord net m s).fs m = true ∧
    failureFree s.events = true := by
  cases hA : m.Attachments with
  | none =>
    have heq : processRecord net m s = s := by unfold processRecord; rw [hA]
    rw [heq] at h ⊢
    exact ⟨fun p hp => hp, by unfold msgSkippable; rw [hA], h⟩
  | some a =>
    by_cases hae : a.isEmpty = true
    · have heq : processRecord net m s = s := by
        unfold processRecord; rw [hA]; simp [hae]
      rw [heq] at h ⊢
      refine ⟨fun p hp => hp, ?_, h⟩
      unfold msgSkippable; rw [hA]; simp [hae]
    · by_cases hat : (trim a).isEmpty = true
      · have heq : processRecord net m s = s := by
          unfold processRecord; rw [hA]; simp [hae, hat]
        rw [heq] at h ⊢
        refine ⟨fun p hp => hp, ?_, h⟩
        unfold msgSkippable; rw [hA]; simp [hae, hat]
      · have heq : processRecord net m s = processUrls net m.ID (tokens a) 0 s := by
          unfold processRecord; rw [hA]; simp [hae, hat]
        rw [heq] at h ⊢
        have hres := processUrls_noFail net m.ID (tokens a) 0 s h
        refine ⟨hres.1, ?_, hres.2.2⟩
        unfold msgSkippable
        rw [hA]
        simp only [hae, Bool.false_eq_true, if_false, hat]
        exact hres.2.1

theorem runRecords_noFail (net : Net) :
    ∀ (msgs : List Msg) (i : Nat) (s : RunState),
      failureFree ((runRecords net none msgs i s).1).events = true →
      (∀ p, s.fs.exists p = true →
        ((runRecords net none msgs i s).1).fs.exists p = true) ∧
      (∀ m ∈ msgs, msgSkippable ((runRecords net none msgs i s).1).fs m = true) ∧
      failureFree s.events = true := by
  intro msgs
  induction msgs with
  | nil => intro i s h; exact ⟨fun p hp => hp, by simp, h⟩
  | cons m ms ih =>
    intro i s h
    simp only [runRecords, shutFlag, Bool.false_eq_true, if_false] at h ⊢
    have hres := ih (i + 1) (processRecord net m s) h
    have h1 := processRecord_noFail net m s hres.2.2
    refine ⟨fun p hp => hres.1 p (h1.1 p hp), ?_, h1.2.2⟩
    intro m2 hm2
    rcases List.mem_cons.mp hm2 with rfl | hm2
    · exact msgSkippable_mono _ _ m2 hres.1 h1.2.1
    · exact hres.2.1 m2 hm2

theorem processUrl_skip (net : Net) (id : Str) (i : Nat) (u : Str)
    (s : RunState) (h : urlSkippable s.fs id i u = true) :
    ∃ p, processUrl net id i u s =
      { s with skippedCount := s.skippedCount + 1,
               events := s.events ++ [Event.skippedExisting p] } := by
  unfold urlSkippable at h
  cases hd : deriveFilename id i u with
  | none => rw [hd] at h; simp at h
  | some name =>
    rw [hd] at h
    dsimp only at h
    refine ⟨destPath name, ?_⟩
    unfold processUrl
    rw [hd]
    dsimp only
    simp [h]

theorem processUrls_skip (net : Net) (id : Str) :
    ∀ (us : List Str) (i : Nat) (s : RunState),
      urlsSkippable s.fs id us i = true →
      ∃ evs, processUrls net id us i s =
        { s with skippedCount := s.skippedCount + us.length,
                 events := s.events ++ evs } ∧
        evs.countP isNetAttempt = 0 := by
  intro us
  induction us with
  | nil =>
    intro i s _
    refine ⟨[], ?_, rfl⟩
    simp [processUrls]
  | cons u us2 ih =>
    intro i s h
    simp only [urlsSkippable, Bool.and_eq_true] at h
    obtain ⟨p, hp⟩ := processUrl_skip net id i u s h.1
    have hfs : (processUrl net id i u s).fs = s.fs := by rw [hp]
    have h2 : urlsSkippable (processUrl net id i u s).fs id us2 (i + 1) = true := by
      rw [hfs]; exact h.2
    obtain ⟨evs, hevs, hcount⟩ := ih (i + 1) (processUrl net id i u s) h2
    refine ⟨Event.skippedExisting p :: evs, ?_, ?_⟩
    · simp only [processUrls]
      rw [hevs, hp]
      simp only [List.append_assoc, List.singleton_append, List.length_cons]
      congr 1
      omega
    · simp [List.countP_cons, isNetAttempt, hcount]

theorem processRecord_skip (net : Net) (m : Msg) (s : RunState)
    (h : msgSkippable s.fs m = true) :
    ∃ evs, processRecord net m s =
      { s with skippedCount := s.skippedCount + msgTokenCount m,
               events := s.events ++ evs } ∧
      evs.countP isNetAttempt = 0 := by
  cases hA : m.Attachments with
  | none =>
    refine ⟨[], ?_, rfl⟩
    unfold processRecord msgTokenCount
    rw [hA]
    simp
  | some a =>
    by_cases hae : a.isEmpty = true
    · refine ⟨[], ?_, rfl⟩
      unfold processRecord msgTokenCount
      rw [hA]
      simp [hae]
    · by_cases hat : (trim a).isEmpty = true
      · refine ⟨[], ?_, rfl⟩
        unfold processRecord msgTokenCount
        rw [hA]
        simp [hae, hat]
      · unfold msgSkippable at h
        rw [hA] at h
        simp only [hae, Bool.false_eq_true, if_false, hat] at h
        obtain ⟨evs, hevs, hcount⟩ := processUrls_skip net m.ID (tokens a) 0 s h
        refine ⟨evs, ?_, hcount⟩
        have heq : processRecord net m s = processUrls net m.ID (tokens a) 0 s := by
          unfold processRecord; rw [hA]; simp [hae, hat]
        rw [heq, hevs]
        have hcnt : msgTokenCount m = (tokens a).length := by
          unfold msgTokenCount; rw [hA]; simp [hae, hat]
        rw [hcnt]

theorem runRecords_skip (net : Net) :
    ∀ (msgs : List Msg) (i : Nat) (s : RunState),
      (∀ m ∈ msgs, msgSkippable s.fs m = true) →
      ∃ evs, (runRecords net none msgs i s).1 =
        { s with skippedCount := s.skippedCount + totalTokenCount msgs,
                 events := s.events ++ evs } ∧
        evs.countP isNetAttempt = 0 := by
  intro msgs
  induction msgs with
  | nil =>
    intro i s _
    refine ⟨[], ?_, rfl⟩
    simp [runRecords, totalTokenCount]
  | cons m ms ih =>
    intro i s h
    obtain ⟨evs1, he1, hc1⟩ := processRecord_skip net m s (h m (by simp))
    have hfs : (processRecord net m s).fs = s.fs := by rw [he1]
    have h2 : ∀ m2 ∈ ms, msgSkippable (processRecord net m s).fs m2 = true := by
      intro m2 hm2
      rw [hfs]
      exact h m2 (by simp [hm2])
    obtain ⟨evs2, he2, hc2⟩ := ih (i + 1) _ h2
    refine ⟨evs1 ++ evs2, ?_, ?_⟩
    · simp only [runRecords, shutFlag, Bool.false_eq_true, if_false]
      rw [he2, he1]
      simp only [List.append_assoc]
      congr 1
      · simp only [totalTokenCount, List.map_cons, List.sum_cons]
        omega
    · simp [List.countP_append, hc1, hc2]


/-- C5 (amended): (1) unconditionally, an attachment whose destination file
already exists is counted as skipped with no network call and no state
change beyond the counter and the log; (2) if the first run completes with
no per-attachment failure (no URL errors and no transfer errors), then
running the batch again over the same input against the resulting file
system performs zero downloads, makes zero network attempts, counts every
attachment as skipped, and leaves the file system unchanged. -/
theorem c5_second_run_skips :
    (∀ (net : Net) (id : Str) (i : Nat) (u : Str) (s : RunState) (name : Str),
      deriveFilename id i u = some name →
      s.fs.exists (destPath name) = true →
      processUrl net id i u s =
        { s with skippedCount := s.skippedCount + 1,
                 events := s.events ++ [Event.skippedExisting (destPath name)] }) ∧
    (∀ (net : Net) (msgs : List Msg) (fs0 : FS),
      failureFree ((runRecords net none msgs 1 ⟨fs0, 0, 0, []⟩).1).events = true →
      ∃ evs,
        (runRecords net none msgs 1
            ⟨((runRecords net none msgs 1 ⟨fs0, 0, 0, []⟩).1).fs, 0, 0, []⟩).1 =
          { fs := ((runRecords net none msgs 1 ⟨fs0, 0, 0, []⟩).1).fs,
            downloadCount := 0,
            skippedCount := totalTokenCount msgs,
            events := evs } ∧
        evs.countP isNetAttempt = 0) := by
  constructor
  · intro net id i u s name hd he
    unfold processUrl
    rw [hd]
    dsimp only
    simp [he]
  · intro net msgs fs0 h
    have hres := runRecords_noFail net msgs 1 ⟨fs0, 0, 0, []⟩ h
    obtain ⟨evs, hevs, hcount⟩ :=
      runRecords_skip net msgs 1
        ⟨((runRecords net none msgs 1 ⟨fs0, 0, 0, []⟩).1).fs, 0, 0, []⟩
        (fun m hm => hres.2.1 m hm)
    refine ⟨evs, ?_, hcount⟩
    rw [hevs]
    simp

/-- C5 counterexample: with a network that always faults, the single
attachment of run 1 fails and its partial file is deleted; run 2 over the
resulting file system then skips nothing and makes a network attempt, so
the second run is not "zero downloads with all attachments skipped and no
network call". -/
theorem c5_counterexample :
    (runRecords (fun _ => NetResult.fault) none
        [⟨['1'], some "http://x/a.jpg".data⟩] 1
        ⟨(runRecords (fun _ => NetResult.fault) none
            [⟨['1'], some "http://x/a.jpg".data⟩] 1
            ⟨⟨[]⟩, 0, 0, []⟩).1.fs, 0, 0, []⟩).1.skippedCount = 0 ∧
    ((runRecords (fun _ => NetResult.fault) none
        [⟨['1'], some "http://x/a.jpg".data⟩] 1
        ⟨(runRecords (fun _ => NetResult.fault) none
            [⟨['1'], some "http://x/a.jpg".data⟩] 1
            ⟨⟨[]⟩, 0, 0, []⟩).1.fs, 0, 0, []⟩).1.events.countP isNetAttempt
      = 1) ∧
    totalTokenCount [⟨['1'], some "http://x/a.jpg".data⟩] = 1 := by
  decide

/-- C5 witness: the amended theorem at concrete inputs — a pre-existing
destination is skipped without a network call, and after a fully successful
run a second run skips everything. -/
theorem c5_second_run_skips_witness :
    processUrl (fun _ => NetResult.response 200) ['1'] 0 "http://x/a.jpg".data
        ⟨⟨["downloads/1_1.jpg".data]⟩, 0, 0, []⟩ =
      { (⟨⟨["downloads/1_1.jpg".data]⟩, 0, 0, []⟩ : RunState) with
          skippedCount := 1,
          events := [Event.skippedExisting "downloads/1_1.jpg".data] } ∧
    ∃ evs,
      (runRecords (fun _ => NetResult.response 200) none
          [⟨['1'], some "http://x/a.jpg".data⟩] 1
          ⟨((runRecords (fun _ => NetResult.response 200) none
              [⟨['1'], some "http://x/a.jpg".data⟩] 1
              ⟨⟨[]⟩, 0, 0, []⟩).1).fs, 0, 0, []⟩).1 =
        { fs := ((runRecords (fun _ => NetResult.response 200) none
              [⟨['1'], some "http://x/a.jpg".data⟩] 1
              ⟨⟨[]⟩, 0, 0, []⟩).1).fs,
          downloadCount := 0,
          skippedCount :=
            totalTokenCount [⟨['1'], some "http://x/a.jpg".data⟩],
          events := evs } ∧
      evs.countP isNetAttempt = 0 :=
  ⟨c5_second_run_skips.1 (fun _ => NetResult.response 200) ['1'] 0
      "http://x/a.jpg".data ⟨⟨["downloads/1_1.jpg".data]⟩, 0, 0, []⟩
      "1_1.jpg".data (by decide) (by decide),
   c5_second_run_skips.2 (fun _ => NetResult.response 200)
      [⟨['1'], some "http://x/a.jpg".data⟩] ⟨[]⟩ (by decide)⟩


theorem fixDataGo_nil (fuel : Nat) : fixDataGo fuel [] = [] := by
  cases fuel <;> rfl

/-- One-step unfolding of `fixDataGo` (definitional). -/
theorem fixDataGo_succ_cons (fuel : Nat) (c : Char) (cs : Str) :
    fixDataGo (fuel + 1) (c :: cs) =
      if c = '"' then
        match cs with
        | 'I' :: 'D' :: '"' :: ':' :: rest =>
          let rest2 := rest.dropWhile isWsChar
          let digits := rest2.takeWhile isDigitChar
          if digits.isEmpty then '"' :: fixDataGo fuel cs
          else '"' :: 'I' :: 'D' :: '"' :: ':' :: ' ' :: '"' ::
               (digits ++ '"' :: fixDataGo fuel (rest2.drop digits.length))
        | _ => '"' :: fixDataGo fuel cs
      else c :: fixDataGo fuel cs := rfl

theorem fixData_cons_safe (c : Char) (cs : Str) (hc : c ≠ '"') :
    fixData (c :: cs) = c :: fixData cs := by
  show fixDataGo (c :: cs).length (c :: cs) = c :: fixDataGo cs.length cs
  simp only [List.length_cons]
  rw [fixDataGo_succ_cons]
  simp [hc]

theorem fixData_append_safe : ∀ (l1 l2 : Str), (∀ c ∈ l1, c ≠ '"') →
    fixData (l1 ++ l2) = l1 ++ fixData l2 := by
  intro l1
  induction l1 with
  | nil => intro l2 _; rfl
  | cons c l1b ih =>
    intro l2 h
    rw [List.cons_append, fixData_cons_safe c _ (h c (by simp)),
      ih l2 (fun x hx => h x (by simp [hx]))]
    rfl

/-- Fuel irrelevance for the scan worker, above the input length. -/
theorem fixDataGo_congr : ∀ (fuel1 fuel2 : Nat) (l : Str),
    l.length ≤ fuel1 → l.length ≤ fuel2 → fixDataGo fuel1 l = fixDataGo fuel2 l := by
  intro fuel1
  induction fuel1 with
  | zero =>
    intro fuel2 l h1 _
    have hl : l = [] := List.eq_nil_of_length_eq_zero (by omega)
    subst hl
    rw [fixDataGo_nil, fixDataGo_nil]
  | succ f1 ih =>
    intro fuel2 l h1 h2
    cases l with
    | nil => rw [fixDataGo_nil, fixDataGo_nil]
    | cons c cs =>
      cases fuel2 with
      | zero => simp at h2
      | succ f2 =>
        rw [fixDataGo_succ_cons, fixDataGo_succ_cons]
        simp only [List.length_cons] at h1 h2
        by_cases hc : c = '"'
        · rw [if_pos hc, if_pos hc]
          split
        
          · rename_i rest
            by_cases hde : ((rest.dropWhile isWsChar).takeWhile isDigitChar).isEmpty = true
            · rw [if_pos hde, if_pos hde,
                ih f2 ('I' :: 'D' :: '"' :: ':' :: rest) (by simp_all) (by simp_all)]
            · rw [if_neg hde, if_neg hde]
              have hlen : ((rest.dropWhile isWsChar).drop
                  ((rest.dropWhile isWsChar).takeWhile isDigitChar).length).length
                  ≤ rest.length := by
                have ha : ((rest.dropWhile isWsChar).drop
                    ((rest.dropWhile isWsChar).takeWhile isDigitChar).length).length
                    ≤ (rest.dropWhile isWsChar).length := by
                  simp [List.length_drop]
                have hb : (rest.dropWhile isWsChar).length ≤ rest.length :=
                  (List.dropWhile_sublist isWsChar (l := rest)).length_le
                omega
              rw [ih f2 _ (by simp_all; omega) (by simp_all; omega)]
          · rw [ih f2 cs (by omega) (by omega)]
        · rw [if_neg hc, if_neg hc, ih f2 cs (by omega) (by omega)]

theorem fixDataGo_eq_fixData (fuel : Nat) (l : Str) (h : l.length ≤ fuel) :
    fixDataGo fuel l = fixData l :=
  fixDataGo_congr fuel l.length l h (by omega)


/-- A quote whose successor is not `I` never starts a match. -/
theorem fixData_quote_notI (c : Char) (l : Str) (hc : c ≠ 'I') :
    fixData ('"' :: c :: l) = '"' :: fixData (c :: l) := by
  show fixDataGo ('"' :: c :: l).length ('"' :: c :: l) =
    '"' :: fixDataGo (c :: l).length (c :: l)
  simp only [List.length_cons]
  rw [fixDataGo_succ_cons]
  rw [if_pos rfl]
  split
  · rename_i rest heq
    injection heq with h1 _
    exact absurd h1 hc
  · rfl

/-- The `"ID":` key of a record whose ID value is quoted: the match attempt
fails on the digits test (the next non-space character is a quote). -/
theorem fixData_quote_IDkey (X : Str) :
    fixData ('"' :: 'I' :: 'D' :: '"' :: ':' :: ' ' :: '"' :: X) =
      '"' :: fixData ('I' :: 'D' :: '"' :: ':' :: ' ' :: '"' :: X) := rfl

/-- A quote followed by quote-free text up to a closing quote not followed
by a colon never starts a match. -/
theorem fixData_quote_safe_append (l tail : Str) (hl : ∀ c ∈ l, c ≠ '"')
    (ht : ∀ c ∈ tail.head?, c ≠ ':') :
    fixData ('"' :: (l ++ '"' :: tail)) = '"' :: fixData (l ++ '"' :: tail) := by
  show fixDataGo ('"' :: (l ++ '"' :: tail)).length ('"' :: (l ++ '"' :: tail)) =
    '"' :: fixDataGo (l ++ '"' :: tail).length (l ++ '"' :: tail)
  simp only [List.length_cons]
  rw [fixDataGo_succ_cons]
  rw [if_pos rfl]
  split
  · rename_i rest heq
    exfalso
    cases l with
    | nil =>
      rw [List.nil_append] at heq
      injection heq with h1 _
      exact absurd h1 (by decide)
    | cons c1 l1 =>
      cases l1 with
      | nil =>
        simp only [List.cons_append, List.nil_append] at heq
        injection heq with h1 heq2
        injection heq2 with h2 _
        exact absurd h2 (by decide)
      | cons c2 l2 =>
        cases l2 with
        | nil =>
          simp only [List.cons_append, List.nil_append] at heq
          injection heq with h1 heq2
          injection heq2 with h2 heq3
          injection heq3 with h3 heq4
          exact ht ':' (by rw [heq4]; rfl) rfl
        | cons c3 l3 =>
          simp only [List.cons_append] at heq
          injection heq with h1 heq2
          injection heq2 with h2 heq3
          injection heq3 with h3 _
          exact absurd h3 (hl c3 (by simp))
  · rfl


theorem isDigit_not_ws (c : Char) (h : isDigitChar c = true) :
    isWsChar c = false := by
  simp only [isDigitChar, Bool.and_eq_true, decide_eq_true_eq] at h
  simp only [isWsChar, Bool.or_eq_false_iff, Bool.and_eq_false_iff,
    decide_eq_false_iff_not]
  omega

theorem isDigit_not_quote (c : Char) (h : isDigitChar c = true) : c ≠ '"' := by
  intro he
  subst he
  simp [isDigitChar] at h

/-- The `"ID":` key followed by an unquoted run of digits: the match
succeeds and the replacement quotes the digits; scanning resumes after
them. -/
theorem fixData_IDnum_site (d rest2 : Str) (hd0 : d ≠ [])
    (hdig : d.all isDigitChar = true)
    (hhead : ∀ c ∈ rest2.head?, isDigitChar c = false) :
    fixData ('"' :: 'I' :: 'D' :: '"' :: ':' :: ' ' :: (d ++ rest2)) =
      '"' :: 'I' :: 'D' :: '"' :: ':' :: ' ' :: '"' ::
        (d ++ '"' :: fixData rest2) := by
  show fixDataGo ('"' :: 'I' :: 'D' :: '"' :: ':' :: ' ' :: (d ++ rest2)).length _ = _
  simp only [List.length_cons]
  rw [fixDataGo_succ_cons]
  rw [if_pos rfl]
  have hdw : (' ' :: (d ++ rest2)).dropWhile isWsChar = d ++ rest2 := by
    cases d with
    | nil => exact absurd rfl hd0
    | cons c1 d1 =>
      have hc1 : isDigitChar c1 = true := by
        simp only [List.all_cons, Bool.and_eq_true] at hdig
        exact hdig.1
      have hsp : isWsChar ' ' = true := by decide
      simp [List.dropWhile_cons, hsp, isDigit_not_ws c1 hc1]
  have htw : (d ++ rest2).takeWhile isDigitChar = d :=
    takeWhile_all_append isDigitChar d rest2 hdig hhead
  simp only [hdw, htw]
  have hne : d.isEmpty = false := by
    cases d with
    | nil => exact absurd rfl hd0
    | cons c1 d1 => rfl
  rw [if_neg (by simp [hne])]
  have hdrop : (d ++ rest2).drop d.length = rest2 := List.drop_left d rest2
  rw [hdrop]
  have hfuel : rest2.length ≤ ('I' :: 'D' :: '"' :: ':' :: ' ' :: (d ++ rest2)).length := by
    simp [List.length_append]
    omega
  rw [fixDataGo_eq_fixData _ _ (by simpa using hfuel)]


theorem hasIDNumMatchGo_nil (fuel : Nat) : hasIDNumMatchGo fuel [] = false := by
  cases fuel <;> rfl

/-- One-step unfolding of `hasIDNumMatchGo` (definitional). -/
theorem hasIDNumMatchGo_succ_cons (fuel : Nat) (c : Char) (cs : Str) :
    hasIDNumMatchGo (fuel + 1) (c :: cs) =
      if c = '"' then
        match cs with
        | 'I' :: 'D' :: '"' :: ':' :: rest =>
          let rest2 := rest.dropWhile isWsChar
          let digits := rest2.takeWhile isDigitChar
          if digits.isEmpty then hasIDNumMatchGo fuel cs else true
        | _ => hasIDNumMatchGo fuel cs
      else hasIDNumMatchGo fuel cs := rfl

theorem fixDataGo_of_noMatch : ∀ (fuel : Nat) (l : Str),
    hasIDNumMatchGo fuel l = false → fixDataGo fuel l = l := by
  intro fuel
  induction fuel with
  | zero => intro l h; cases l <;> rfl
  | succ f ih =>
    intro l h
    cases l with
    | nil => rfl
    | cons c cs =>
      rw [hasIDNumMatchGo_succ_cons] at h
      rw [fixDataGo_succ_cons]
      by_cases hc : c = '"'
      · subst hc
        rw [if_pos rfl] at h
        rw [if_pos rfl]
        revert h
        split
        · rename_i rest
          intro h
          by_cases hde :
              ((rest.dropWhile isWsChar).takeWhile isDigitChar).isEmpty = true
          · rw [if_pos hde] at h
            rw [if_pos hde, ih _ h]
          · rw [if_neg hde] at h
            exact absurd h (by simp)
        · intro h
          rw [ih _ h]
      · rw [if_neg hc] at h
        rw [if_neg hc, ih _ h]

/-- A text in which the scan finds no `"ID": <digits>` occurrence is left
unchanged by the pre-pass. -/
theorem fixData_of_noMatch (l : Str) (h : hasIDNumMatch l = false) :
    fixData l = l :=
  fixDataGo_of_noMatch l.length l h


theorem renderQRec_append (r : RawRec) (rest : Str) :
    renderQRec r ++ rest =
      '{' :: '"' :: 'I' :: 'D' :: '"' :: ':' :: ' ' :: '"' ::
        (r.idDigits ++ ('"' :: ',' :: ' ' :: '"' :: 'A' :: 't' :: 't' :: 'a' ::
          'c' :: 'h' :: 'm' :: 'e' :: 'n' :: 't' :: 's' :: '"' :: ':' :: ' ' :: '"' ::
          (r.att ++ ('"' :: '}' :: rest)))) := by
  simp only [renderQRec, List.append_assoc]
  rfl

theorem renderNRec_append (r : RawRec) (rest : Str) :
    renderNRec r ++ rest =
      '{' :: '"' :: 'I' :: 'D' :: '"' :: ':' :: ' ' ::
        (r.idDigits ++ (',' :: ' ' :: '"' :: 'A' :: 't' :: 't' :: 'a' ::
          'c' :: 'h' :: 'm' :: 'e' :: 'n' :: 't' :: 's' :: '"' :: ':' :: ' ' :: '"' ::
          (r.att ++ ('"' :: '}' :: rest)))) := by
  simp only [renderNRec, List.append_assoc]
  rfl

theorem safeChar_not_quote (c : Char) (h : safeChar c = true) : c ≠ '"' := by
  intro he
  subst he
  simp [safeChar] at h

theorem fixData_renderQRec (r : RawRec) (hw : r.wf) (rest : Str) :
    fixData (renderQRec r ++ rest) = renderQRec r ++ fixData rest := by
  obtain ⟨hd0, hdig, hatt⟩ := hw
  have hdq : ∀ c ∈ r.idDigits, c ≠ '"' := by
    intro c hc
    exact isDigit_not_quote c (by
      rw [List.all_eq_true] at hdig
      exact hdig c hc)
  have haq : ∀ c ∈ r.att, c ≠ '"' := by
    intro c hc
    exact safeChar_not_quote c (by
      rw [List.all_eq_true] at hatt
      exact hatt c hc)
  rw [renderQRec_append, renderQRec_append]
  rw [show fixData ('{' :: '"' :: 'I' :: 'D' :: '"' :: ':' :: ' ' :: '"' ::
        (r.idDigits ++ ('"' :: ',' :: ' ' :: '"' :: 'A' :: 't' :: 't' :: 'a' ::
          'c' :: 'h' :: 'm' :: 'e' :: 'n' :: 't' :: 's' :: '"' :: ':' :: ' ' :: '"' ::
          (r.att ++ ('"' :: '}' :: rest))))) =
      '{' :: '"' :: 'I' :: 'D' :: '"' :: ':' :: ' ' ::
        fixData ('"' :: (r.idDigits ++ ('"' :: (',' :: ' ' :: '"' :: 'A' :: 't' :: 't' :: 'a' ::
          'c' :: 'h' :: 'm' :: 'e' :: 'n' :: 't' :: 's' :: '"' :: ':' :: ' ' :: '"' ::
          (r.att ++ ('"' :: '}' :: rest)))))) from rfl]
  rw [fixData_quote_safe_append _ _ hdq (by intro c hc; simp at hc; subst hc; decide)]
  rw [fixData_append_safe _ _ hdq]
  rw [show fixData ('"' :: (',' :: ' ' :: '"' :: 'A' :: 't' :: 't' :: 'a' ::
          'c' :: 'h' :: 'm' :: 'e' :: 'n' :: 't' :: 's' :: '"' :: ':' :: ' ' :: '"' ::
          (r.att ++ ('"' :: '}' :: rest)))) =
      '"' :: ',' :: ' ' :: '"' :: 'A' :: 't' :: 't' :: 'a' ::
          'c' :: 'h' :: 'm' :: 'e' :: 'n' :: 't' :: 's' :: '"' :: ':' :: ' ' ::
        fixData ('"' :: (r.att ++ ('"' :: ('}' :: rest)))) from rfl]
  rw [fixData_quote_safe_append _ _ haq (by intro c hc; simp at hc; subst hc; decide)]
  rw [fixData_append_safe _ _ haq]
  rw [show fixData ('"' :: '}' :: rest) = '"' :: '}' :: fixData rest from rfl]


theorem fixData_renderNRec (r : RawRec) (hw : r.wf) (rest : Str) :
    fixData (renderNRec r ++ rest) = renderQRec r ++ fixData rest := by
  obtain ⟨hd0, hdig, hatt⟩ := hw
  have haq : ∀ c ∈ r.att, c ≠ '"' := by
    intro c hc
    exact safeChar_not_quote c (by
      rw [List.all_eq_true] at hatt
      exact hatt c hc)
  rw [renderNRec_append, renderQRec_append]
  rw [show fixData ('{' :: '"' :: 'I' :: 'D' :: '"' :: ':' :: ' ' ::
        (r.idDigits ++ (',' :: ' ' :: '"' :: 'A' :: 't' :: 't' :: 'a' ::
          'c' :: 'h' :: 'm' :: 'e' :: 'n' :: 't' :: 's' :: '"' :: ':' :: ' ' :: '"' ::
          (r.att ++ ('"' :: '}' :: rest))))) =
      '{' :: fixData ('"' :: 'I' :: 'D' :: '"' :: ':' :: ' ' ::
        (r.idDigits ++ (',' :: ' ' :: '"' :: 'A' :: 't' :: 't' :: 'a' ::
          'c' :: 'h' :: 'm' :: 'e' :: 'n' :: 't' :: 's' :: '"' :: ':' :: ' ' :: '"' ::
          (r.att ++ ('"' :: '}' :: rest))))) from rfl]
  rw [fixData_IDnum_site _ _ hd0 hdig (by intro c hc; simp at hc; subst hc; decide)]
  rw [show fixData (',' :: ' ' :: '"' :: 'A' :: 't' :: 't' :: 'a' ::
          'c' :: 'h' :: 'm' :: 'e' :: 'n' :: 't' :: 's' :: '"' :: ':' :: ' ' :: '"' ::
          (r.att ++ ('"' :: '}' :: rest))) =
      ',' :: ' ' :: '"' :: 'A' :: 't' :: 't' :: 'a' ::
          'c' :: 'h' :: 'm' :: 'e' :: 'n' :: 't' :: 's' :: '"' :: ':' :: ' ' ::
        fixData ('"' :: (r.att ++ ('"' :: ('}' :: rest)))) from rfl]
  rw [fixData_quote_safe_append _ _ haq (by intro c hc; simp at hc; subst hc; decide)]
  rw [fixData_append_safe _ _ haq]
  rw [show fixData ('"' :: '}' :: rest) = '"' :: '}' :: fixData rest from rfl]

theorem fixData_renderRecs_q : ∀ (rs : List RawRec), (∀ r ∈ rs, r.wf) →
    ∀ (rest : Str),
      fixData (renderRecs renderQRec rs ++ rest) =
        renderRecs renderQRec rs ++ fixData rest := by
  intro rs
  induction rs with
  | nil => intro _ rest; rfl
  | cons r rs2 ih =>
    intro hw rest
    cases rs2 with
    | nil =>
      simp only [renderRecs]
      exact fixData_renderQRec r (hw r (by simp)) rest
    | cons r2 rs3 =>
      simp only [renderRecs, List.append_assoc, List.cons_append]
      rw [fixData_renderQRec r (hw r (by simp)) _]
      rw [show fixData (',' :: (renderRecs renderQRec (r2 :: rs3) ++ rest)) =
        ',' :: fixData (renderRecs renderQRec (r2 :: rs3) ++ rest) from
          fixData_cons_safe ',' _ (by decide)]
      rw [ih (fun x hx => hw x (by simp [hx])) rest]

theorem fixData_renderRecs_n : ∀ (rs : List RawRec), (∀ r ∈ rs, r.wf) →
    ∀ (rest : Str),
      fixData (renderRecs renderNRec rs ++ rest) =
        renderRecs renderQRec rs ++ fixData rest := by
  intro rs
  induction rs with
  | nil => intro _ rest; rfl
  | cons r rs2 ih =>
    intro hw rest
    cases rs2 with
    | nil =>
      simp only [renderRecs]
      exact fixData_renderNRec r (hw r (by simp)) rest
    | cons r2 rs3 =>
      simp only [renderRecs, List.append_assoc, List.cons_append]
      rw [fixData_renderNRec r (hw r (by simp)) _]
      rw [show fixData (',' :: (renderRecs renderNRec (r2 :: rs3) ++ rest)) =
        ',' :: fixData (renderRecs renderNRec (r2 :: rs3) ++ rest) from
          fixData_cons_safe ',' _ (by decide)]
      rw [ih (fun x hx => hw x (by simp [hx])) rest]

/-- The pre-pass leaves an export whose IDs are quoted strings unchanged. -/
theorem fixData_renderExport_q (rs : List RawRec) (hw : ∀ r ∈ rs, r.wf) :
    fixData (renderExport renderQRec rs) = renderExport renderQRec rs := by
  unfold renderExport
  rw [fixData_cons_safe '[' _ (by decide)]
  rw [fixData_renderRecs_q rs hw [']']]
  rfl

/-- The pre-pass rewrites an export whose IDs are unquoted integer literals
into exactly the corresponding quoted export. -/
theorem fixData_renderExport_n (rs : List RawRec) (hw : ∀ r ∈ rs, r.wf) :
    fixData (renderExport renderNRec rs) = renderExport renderQRec rs := by
  unfold renderExport
  rw [fixData_cons_safe '[' _ (by decide)]
  rw [fixData_renderRecs_n rs hw [']']]
  rfl


/-- C10: the numeric-ID quoting pre-pass is idempotent — on any raw text in
which the scan finds no unquoted `"ID": <digits>` occurrence (in particular
any text whose ID values are already quoted strings) it is the identity; a
rendered export with quoted string IDs is left unchanged; and an export
with unquoted integer-literal IDs parses, via `readFile`, to exactly the
same value and the same record sequence as the corresponding quoted
export. -/
theorem c10_prepass_idempotent :
    (∀ l : Str, hasIDNumMatch l = false → fixData l = l) ∧
    (∀ rs : List RawRec, (∀ r ∈ rs, r.wf) →
      fixData (renderExport renderQRec rs) = renderExport renderQRec rs ∧
      readFile (renderExport renderNRec rs) =
        readFile (renderExport renderQRec rs) ∧
      readMessages (renderExport renderNRec rs) =
        readMessages (renderExport renderQRec rs)) := by
  refine ⟨fixData_of_noMatch, ?_⟩
  intro rs hw
  refine ⟨fixData_renderExport_q rs hw, ?_, ?_⟩
  · unfold readFile
    rw [fixData_renderExport_n rs hw, fixData_renderExport_q rs hw]
  · unfold readMessages readFile
    rw [fixData_renderExport_n rs hw, fixData_renderExport_q rs hw]

/-- C10 witness: the pre-pass at concrete inputs. -/
theorem c10_prepass_idempotent_witness :
    fixData "\x7b\"ID\": \"71\"\x7d".data = "\x7b\"ID\": \"71\"\x7d".data ∧
    readMessages (renderExport renderNRec [⟨['7'], ['x']⟩]) =
      readMessages (renderExport renderQRec [⟨['7'], ['x']⟩]) :=
  ⟨c10_prepass_idempotent.1 "\x7b\"ID\": \"71\"\x7d".data (by decide),
   (c10_prepass_idempotent.2 [⟨['7'], ['x']⟩]
      (by intro r hr; simp at hr; subst hr; exact ⟨by decide, by decide, by decide⟩)).2.2⟩


theorem safeChar_facts (c : Char) (h : safeChar c = true) :
    32 ≤ c.toNat ∧ c ≠ '"' ∧ c ≠ '\\' := by
  simp only [safeChar, Bool.and_eq_true, decide_eq_true_eq] at h
  exact ⟨h.1.1, h.1.2, h.2⟩

theorem isDigit_safe (c : Char) (h : isDigitChar c = true) :
    safeChar c = true := by
  simp only [isDigitChar, Bool.and_eq_true, decide_eq_true_eq] at h
  simp only [safeChar, Bool.and_eq_true, decide_eq_true_eq]
  have h34 : ('"' : Char).toNat = 34 := rfl
  have h92 : ('\\' : Char).toNat = 92 := rfl
  refine ⟨⟨by omega, ?_⟩, ?_⟩
  · intro he; rw [he] at h; omega
  · intro he; rw [he] at h; omega

theorem parseStringBody_safe : ∀ (s rest : Str), (∀ c ∈ s, safeChar c = true) →
    parseStringBody (s ++ '"' :: rest) = some (s, rest) := by
  intro s
  induction s with
  | nil =>
    intro rest _
    simp [parseStringBody.eq_def]
  | cons c s2 ih =>
    intro rest h
    obtain ⟨h32, hq, hb⟩ := safeChar_facts c (h c (by simp))
    rw [List.cons_append, parseStringBody.eq_def]
    dsimp only
    rw [if_neg hq, if_neg hb, if_neg (by omega)]
    rw [ih rest (fun x hx => h x (by simp [hx]))]
    rfl

theorem skipWs_not_ws (c : Char) (l : Str) (h : isJsonWs c = false) :
    skipWs (c :: l) = c :: l := by
  simp [skipWs, List.dropWhile_cons, h]

theorem skipWs_space (l : Str) : skipWs (' ' :: l) = skipWs l := by
  have h : isJsonWs ' ' = true := rfl
  simp [skipWs, List.dropWhile_cons, h]

/-- One-step unfoldings of the parser procedures (definitional). -/
theorem parseValue_succ_obj (fuel : Nat) (rest : Str) :
    parseValue (fuel + 1) ('{' :: rest) =
      (match skipWs rest with
       | '}' :: rest2 => some (.obj [], rest2)
       | l2 => (parseFields fuel l2).map fun p => (.obj p.1, p.2)) := rfl

theorem parseValue_succ_arr (fuel : Nat) (rest : Str) :
    parseValue (fuel + 1) ('[' :: rest) =
      (match skipWs rest with
       | ']' :: rest2 => some (.arr [], rest2)
       | l2 => (parseItems fuel l2).map fun p => (.arr p.1, p.2)) := rfl

theorem parseValue_succ_str (fuel : Nat) (rest : Str) :
    parseValue (fuel + 1) ('"' :: rest) =
      (parseStringBody rest).map fun p => (.str p.1, p.2) := rfl

theorem parseItems_succ (fuel : Nat) (l : Str) :
    parseItems (fuel + 1) l =
      (match parseValue fuel l with
       | none => none
       | some (v, r) =>
         match skipWs r with
         | ',' :: r2 => (parseItems fuel (skipWs r2)).map fun p => (v :: p.1, p.2)
         | ']' :: r2 => some ([v], r2)
         | _ => none) := rfl

theorem parseFields_succ_str (fuel : Nat) (rest : Str) :
    parseFields (fuel + 1) ('"' :: rest) =
      (match parseStringBody rest with
       | none => none
       | some (k, r) =>
         match skipWs r with
         | ':' :: r2 =>
           (match parseValue fuel (skipWs r2) with
            | none => none
            | some (v, r3) =>
              match skipWs r3 with
              | ',' :: r4 =>
                (parseFields fuel (skipWs r4)).map fun p => ((k, v) :: p.1, p.2)
              | '}' :: r4 => some ([(k, v)], r4)
              | _ => none)
         | _ => none) := rfl



theorem fieldColon_step {α : Type} (X : Str) (G : Str → Option α) :
    (match (':' :: X : Str) with
     | ':' :: r2 => G r2
     | _ => none) = G X := rfl

theorem fieldSep_comma {α : Type} (X : Str) (A B : Str → α) (C : α) :
    (match (',' :: X : Str) with
     | ',' :: r4 => A r4
     | '}' :: r4 => B r4
     | _ => C) = A X := rfl

theorem fieldSep_brace {α : Type} (X : Str) (A B : Str → α) (C : α) :
    (match ('}' :: X : Str) with
     | ',' :: r4 => A r4
     | '}' :: r4 => B r4
     | _ => C) = B X := rfl

theorem parseValue_obj_nonempty (fuel : Nat) (rest : Str) (c : Char) (l : Str)
    (hsk : skipWs rest = c :: l) (hc : c ≠ '}') :
    parseValue (fuel + 1) ('{' :: rest) =
      (parseFields fuel (c :: l)).map fun p => (.obj p.1, p.2) := by
  rw [parseValue_succ_obj, hsk]
  split
  · rename_i heq
    injection heq with h1 _
    exact absurd h1 hc
  · rfl

theorem parseValue_arr_nonempty (fuel : Nat) (rest : Str) (c : Char) (l : Str)
    (hsk : skipWs rest = c :: l) (hc : c ≠ ']') :
    parseValue (fuel + 1) ('[' :: rest) =
      (parseItems fuel (c :: l)).map fun p => (.arr p.1, p.2) := by
  rw [parseValue_succ_arr, hsk]
  split
  · rename_i heq
    injection heq with h1 _
    exact absurd h1 hc
  · rfl

theorem parseValue_arr_empty (fuel : Nat) (rest l : Str)
    (hsk : skipWs rest = ']' :: l) :
    parseValue (fuel + 1) ('[' :: rest) = some (.arr [], l) := by
  rw [parseValue_succ_arr, hsk]
  rfl

theorem parseFields_step_comma (fuel : Nat) (rest k r r2 : Str) (v : JValue)
    (r3 r4 : Str)
    (h1 : parseStringBody rest = some (k, r))
    (h2 : skipWs r = ':' :: r2)
    (h3 : parseValue fuel (skipWs r2) = some (v, r3))
    (h4 : skipWs r3 = ',' :: r4) :
    parseFields (fuel + 1) ('"' :: rest) =
      (parseFields fuel (skipWs r4)).map fun p => ((k, v) :: p.1, p.2) := by
  rw [parseFields_succ_str]
  simp [h1, h2, h3, h4]

theorem parseFields_step_brace (fuel : Nat) (rest k r r2 : Str) (v : JValue)
    (r3 r4 : Str)
    (h1 : parseStringBody rest = some (k, r))
    (h2 : skipWs r = ':' :: r2)
    (h3 : parseValue fuel (skipWs r2) = some (v, r3))
    (h4 : skipWs r3 = '}' :: r4) :
    parseFields (fuel + 1) ('"' :: rest) = some ([(k, v)], r4) := by
  rw [parseFields_succ_str]
  simp [h1, h2, h3, h4]

theorem parseItems_step_comma (fuel : Nat) (l : Str) (v : JValue) (r r2 : Str)
    (h1 : parseValue fuel l = some (v, r))
    (h2 : skipWs r = ',' :: r2) :
    parseItems (fuel + 1) l =
      (parseItems fuel (skipWs r2)).map fun p => (v :: p.1, p.2) := by
  rw [parseItems_succ]
  simp [h1, h2]

theorem parseItems_step_bracket (fuel : Nat) (l : Str) (v : JValue) (r r2 : Str)
    (h1 : parseValue fuel l = some (v, r))
    (h2 : skipWs r = ']' :: r2) :
    parseItems (fuel + 1) l = some ([v], r2) := by
  rw [parseItems_succ]
  simp [h1, h2]


theorem parseValue_renderQRec (r : RawRec) (hw : r.wf) (fuel : Nat) (rest : Str) :
    parseValue (fuel + 4) (renderQRec r ++ rest) = some (recVal r, rest) := by
  obtain ⟨hd0, hdig, hatt⟩ := hw
  have hds : ∀ c ∈ r.idDigits, safeChar c = true := by
    intro c hc
    rw [List.all_eq_true] at hdig
    exact isDigit_safe c (hdig c hc)
  have has : ∀ c ∈ r.att, safeChar c = true := by
    intro c hc
    rw [List.all_eq_true] at hatt
    exact hatt c hc
  have hID : ∀ Y : Str, parseStringBody ('I' :: 'D' :: '"' :: Y) =
      some (['I', 'D'], Y) := fun Y => parseStringBody_safe ['I', 'D'] Y (by decide)
  have hAtt : ∀ Y : Str, parseStringBody ('A' :: 't' :: 't' :: 'a' :: 'c' ::
      'h' :: 'm' :: 'e' :: 'n' :: 't' :: 's' :: '"' :: Y) =
      some ("Attachments".data, Y) :=
    fun Y => parseStringBody_safe "Attachments".data Y (by decide)
  have hvd : ∀ (f : Nat) (Y : Str),
      parseValue (f + 1) (skipWs (' ' :: '"' :: (r.idDigits ++ '"' :: Y))) =
        some (.str r.idDigits, Y) := by
    intro f Y
    rw [skipWs_space, skipWs_not_ws '"' _ (by decide), parseValue_succ_str,
      parseStringBody_safe r.idDigits Y hds]
    rfl
  have hva : ∀ (f : Nat) (Y : Str),
      parseValue (f + 1) (skipWs (' ' :: '"' :: (r.att ++ '"' :: Y))) =
        some (.str r.att, Y) := by
    intro f Y
    rw [skipWs_space, skipWs_not_ws '"' _ (by decide), parseValue_succ_str,
      parseStringBody_safe r.att Y has]
    rfl
  rw [renderQRec_append]
  rw [show fuel + 4 = fuel + 3 + 1 from rfl]
  rw [parseValue_obj_nonempty (fuel + 3) _ '"' _
    (skipWs_not_ws '"' _ (by decide)) (by decide)]
  rw [show fuel + 3 = fuel + 2 + 1 from rfl]
  rw [parseFields_step_comma (fuel + 2) _ _ _ _ _ _ _
    (hID _) (skipWs_not_ws ':' _ (by decide)) (hvd (fuel + 1) _)
    (skipWs_not_ws ',' _ (by decide))]
  rw [skipWs_space, skipWs_not_ws '"' _ (by decide)]
  rw [show fuel + 2 = fuel + 1 + 1 from rfl]
  rw [parseFields_step_brace (fuel + 1) _ _ _ _ _ _ _
    (hAtt _) (skipWs_not_ws ':' _ (by decide)) (hva fuel _)
    (skipWs_not_ws '}' _ (by decide))]
  rfl


theorem renderRecs_q_head : ∀ (rs : List RawRec) (X : Str), rs ≠ [] →
    ∃ t, renderRecs renderQRec rs ++ X = '{' :: t := by
  intro rs X h
  cases rs with
  | nil => exact absurd rfl h
  | cons r rs2 =>
    cases rs2 with
    | nil => exact ⟨_, renderQRec_append r X⟩
    | cons r2 rs3 =>
      rw [show renderRecs renderQRec (r :: r2 :: rs3) =
        renderQRec r ++ ',' :: renderRecs renderQRec (r2 :: rs3) from rfl]
      rw [List.append_assoc]
      exact ⟨_, renderQRec_append r _⟩

theorem parseItems_renderRecs : ∀ (rs : List RawRec), rs ≠ [] →
    (∀ r ∈ rs, r.wf) → ∀ (fuel : Nat) (rest : Str), rs.length + 4 ≤ fuel →
      parseItems fuel (renderRecs renderQRec rs ++ (']' :: rest)) =
        some (rs.map recVal, rest) := by
  intro rs
  induction rs with
  | nil => intro h; exact absurd rfl h
  | cons r rs2 ih =>
    intro _ hw fuel rest hfuel
    cases rs2 with
    | nil =>
      obtain ⟨f3, rfl⟩ : ∃ f3, fuel = f3 + 4 + 1 := ⟨fuel - 5, by simp at hfuel; omega⟩
      simp only [renderRecs]
      rw [parseItems_step_bracket _ _ (recVal r) (']' :: rest) rest
        (parseValue_renderQRec r (hw r (by simp)) f3 (']' :: rest))
        (skipWs_not_ws ']' _ (by decide))]
      simp
    | cons r2 rs3 =>
      obtain ⟨f3, rfl⟩ : ∃ f3, fuel = f3 + 4 + 1 := ⟨fuel - 5, by simp at hfuel; omega⟩
      simp only [renderRecs]
      rw [List.append_assoc]
      simp only [List.cons_append]
      rw [parseItems_step_comma _ _ (recVal r)
        (',' :: (renderRecs renderQRec (r2 :: rs3) ++ ']' :: rest))
        (renderRecs renderQRec (r2 :: rs3) ++ ']' :: rest)
        (parseValue_renderQRec r (hw r (by simp)) f3
          (',' :: (renderRecs renderQRec (r2 :: rs3) ++ ']' :: rest)))
        (skipWs_not_ws ',' _ (by decide))]
      obtain ⟨t, ht⟩ := renderRecs_q_head (r2 :: rs3) (']' :: rest) (by simp)
      rw [ht, skipWs_not_ws '{' _ (by decide), ← ht]
      rw [ih (by simp) (fun x hx => hw x (by simp [hx])) (f3 + 4) rest
        (by simp at hfuel ⊢; omega)]
      simp

theorem renderQRec_length (r : RawRec) :
    (renderQRec r).length = 29 + r.idDigits.length + r.att.length := by
  have h1 : ("\x7b\"ID\": \"".data).length = 8 := rfl
  have h2 : ("\", \"Attachments\": \"".data).length = 19 := rfl
  have h3 : ("\"\x7d".data).length = 2 := rfl
  simp [renderQRec, List.length_append, h1, h2, h3]
  omega

theorem renderRecs_q_length : ∀ (rs : List RawRec),
    29 * rs.length ≤ (renderRecs renderQRec rs).length := by
  intro rs
  induction rs with
  | nil => simp [renderRecs]
  | cons r rs2 ih =>
    cases rs2 with
    | nil =>
      simp only [renderRecs, List.length_cons, List.length_nil, renderQRec_length]
      omega
    | cons r2 rs3 =>
      simp only [renderRecs] at ih ⊢
      simp only [List.length_append, List.length_cons, List.length_nil,
        renderQRec_length] at ih ⊢
      omega

theorem jsonParse_renderExport_q (rs : List RawRec) (hw : ∀ r ∈ rs, r.wf) :
    jsonParse (renderExport renderQRec rs) = some (.arr (rs.map recVal)) := by
  cases rs with
  | nil => rfl
  | cons r rs2 =>
    have hv : parseValue ((renderExport renderQRec (r :: rs2)).length + 1)
        (skipWs (renderExport renderQRec (r :: rs2))) =
        some (.arr ((r :: rs2).map recVal), []) := by
      rw [show renderExport renderQRec (r :: rs2) =
        '[' :: (renderRecs renderQRec (r :: rs2) ++ [']']) from rfl]
      rw [skipWs_not_ws '[' _ (by decide)]
      rw [show ('[' :: (renderRecs renderQRec (r :: rs2) ++ [']'])).length + 1 =
        (renderRecs renderQRec (r :: rs2) ++ [']']).length + 1 + 1 from by simp]
      obtain ⟨t, ht⟩ := renderRecs_q_head (r :: rs2) [']'] (by simp)
      rw [parseValue_arr_nonempty _ _ '{' t
        (by rw [ht]; exact skipWs_not_ws '{' _ (by decide)) (by decide)]
      rw [← ht]
      rw [show (renderRecs renderQRec (r :: rs2) ++ [']'] : Str) =
        renderRecs renderQRec (r :: rs2) ++ (']' :: []) from rfl]
      rw [parseItems_renderRecs (r :: rs2) (by simp) hw _ []
        (by
          have hb := renderRecs_q_length (r :: rs2)
          simp only [List.length_append, List.length_cons, List.length_nil] at hb ⊢
          omega)]
      rfl
    unfold jsonParse
    rw [hv]
    rfl

/-- The loop's view of a parsed schematic record. -/
theorem toMsg_recVal (r : RawRec) : toMsg (recVal r) = ⟨r.idDigits, some r.att⟩ := rfl

theorem readMessages_renderExport_q (rs : List RawRec) (hw : ∀ r ∈ rs, r.wf) :
    readMessages (renderExport renderQRec rs) =
      some (rs.map fun r => (⟨r.idDigits, some r.att⟩ : Msg)) := by
  unfold readMessages readFile
  rw [fixData_renderExport_q rs hw, jsonParse_renderExport_q rs hw]
  simp [List.map_map, toMsg_recVal]


/-- C2: a schematic export whose `ID` values are unquoted integer literals
(the digit strings may be arbitrarily long, in particular 18 digits wide)
parses via the pre-pass plus generic JSON deserialization to exactly the
records whose identifier is the identical digit string — the raw text is
rewritten to quote the numeric ID before `JSON.parse`, so no precision is
lost. -/
theorem c2_id_roundtrip (rs : List RawRec) (hw : ∀ r ∈ rs, r.wf) :
    readMessages (renderExport renderNRec rs) =
      some (rs.map fun r => (⟨r.idDigits, some r.att⟩ : Msg)) := by
  unfold readMessages readFile
  rw [fixData_renderExport_n rs hw, jsonParse_renderExport_q rs hw]
  simp [List.map_map, toMsg_recVal]

/-- C2 witness: an 18-digit identifier survives the round trip unchanged. -/
theorem c2_id_roundtrip_witness :
    (∀ r ∈ [(⟨"100000000000000001".data, "http://x/a.jpg".data⟩ : RawRec)], r.wf) ∧
    readMessages (renderExport renderNRec
        [(⟨"100000000000000001".data, "http://x/a.jpg".data⟩ : RawRec)]) =
      some [(⟨"100000000000000001".data, some "http://x/a.jpg".data⟩ : Msg)] :=
  ⟨fun r hr => by
      simp at hr; subst hr; exact ⟨by decide, by decide, by decide⟩,
   c2_id_roundtrip [⟨"100000000000000001".data, "http://x/a.jpg".data⟩]
    (fun r hr => by
      simp at hr; subst hr; exact ⟨by decide, by decide, by decide⟩)⟩

end MD
